import Mathlib

/-!
Verification of the git-relay-server repository (TypeScript sources under src/).

The session store (src/src/services/session-store.ts), the transport crypto
layer (src/src/services/crypto.ts), the file store
(src/src/services/file-store.ts), the envelope middleware (src/src/server.ts)
and the per-repo lock (src/unnamed/part_004) are shallowly embedded below.
Buffers are `List Nat` (byte lists), JavaScript `Map`s are association lists,
`Set<number>` is `Finset Nat`, thrown errors are `Except` values, and the
filesystem observable from the claims (chunk files, stored-file existence) is
explicit state.  Node's `crypto` and `fs` primitives and the `git` binary are
external collaborators; where a function only forwards to them they appear as
function parameters.
-/

namespace GitRelay

instance {ε α : Type} [DecidableEq ε] [DecidableEq α] : DecidableEq (Except ε α) :=
  fun x y =>
    match x, y with
    | .error a, .error b =>
        if h : a = b then .isTrue (by rw [h]) else .isFalse (fun hc => h (Except.error.inj hc))
    | .ok a, .ok b =>
        if h : a = b then .isTrue (by rw [h]) else .isFalse (fun hc => h (Except.ok.inj hc))
    | .error _, .ok _ => .isFalse (fun hc => Except.noConfusion hc)
    | .ok _, .error _ => .isFalse (fun hc => Except.noConfusion hc)

/-! ## Association-list maps (JavaScript `Map` / keyed on-disk files) -/

def lookupA {κ α : Type} [DecidableEq κ] : List (κ × α) → κ → Option α
  | [], _ => none
  | p :: ps, k => if p.1 = k then some p.2 else lookupA ps k

def setA {κ α : Type} [DecidableEq κ] (m : List (κ × α)) (k : κ) (v : α) : List (κ × α) :=
  (k, v) :: m.filter (fun p => decide (p.1 ≠ k))

/-! ## Session store data model

From src/src/services/session-store.ts together with the six-status enum of
src/src/lib/types.ts (`receiving | complete | processing | pushed | stored |
failed`).  The older four-status copy of types.ts lacks `complete`/`stored`;
the routes in the repository write both, so the six-status enum is the one the
running code uses. -/

inductive SessionStatus where
  | receiving
  | complete
  | processing
  | pushed
  | stored
  | failed
deriving DecidableEq, Repr

structure SessionInfo where
  sessionId : String
  totalChunks : Nat
  receivedChunks : Finset Nat
  status : SessionStatus
  message : String
  details : List (String × String)
  createdAt : Nat
  updatedAt : Nat
deriving DecidableEq

/-- Errors thrown by the session store: the `RelayError` subclasses of
src/src/lib/errors.ts that its operations raise, plus the `ENOENT` a raw
`fs.readFileSync` throws when a chunk file is missing. -/
inductive Err where
  | sessionCompleted (sessionId : String)
  | sessionNotFound (sessionId : String)
  | incompleteChunks (expected received : Nat)
  | enoent (sessionId : String) (chunkIndex : Nat)
deriving DecidableEq, Repr

/-- Machine code of the error as surfaced over HTTP (errors.ts / handleError). -/
def Err.code : Err → String
  | .sessionCompleted _ => "SESSION_COMPLETED"
  | .sessionNotFound _ => "SESSION_NOT_FOUND"
  | .incompleteChunks _ _ => "INCOMPLETE_CHUNKS"
  | .enoent _ _ => "INTERNAL_ERROR"

/-- HTTP status of the error (errors.ts / handleError fallback). -/
def Err.httpStatus : Err → Nat
  | .sessionCompleted _ => 409
  | .sessionNotFound _ => 404
  | .incompleteChunks _ _ => 400
  | .enoent _ _ => 500

/-- In-memory session map plus the on-disk chunk files
`<sessionsRoot>/<sessionId>/chunk-<index>.bin`. -/
structure StoreState where
  sessions : List (String × SessionInfo)
  disk : List ((String × Nat) × List Nat)
deriving DecidableEq

def StoreState.empty : StoreState := ⟨[], []⟩

/-- Shared tail of `storeChunk` (session-store.ts lines 65-74): write the chunk
file, add the index to `receivedChunks`, bump `updatedAt`, return the new
`receivedChunks.size`. -/
def storeChunkWrite (st : StoreState) (sessionId : String) (chunkIndex : Nat)
    (data : List Nat) (now : Nat) (session : SessionInfo) : StoreState × Nat :=
  let session' := { session with
    receivedChunks := insert chunkIndex session.receivedChunks
    updatedAt := now }
  (⟨setA st.sessions sessionId session', setA st.disk (sessionId, chunkIndex) data⟩,
    session'.receivedChunks.card)

/-- session-store.ts lines 39-75.  The completed-session guard only rejects
`processing | pushed | failed`; the `stored` status is not checked.  A fresh
session is created with the `totalChunks` of the call; for an existing session
the `totalChunks` argument is ignored. -/
def storeChunk (st : StoreState) (sessionId : String) (chunkIndex totalChunks : Nat)
    (data : List Nat) (now : Nat) : Except Err (StoreState × Nat) :=
  match lookupA st.sessions sessionId with
  | some session =>
      if session.status = .processing ∨ session.status = .pushed ∨ session.status = .failed then
        .error (.sessionCompleted sessionId)
      else
        .ok (storeChunkWrite st sessionId chunkIndex data now session)
  | none =>
      .ok (storeChunkWrite st sessionId chunkIndex data now
        { sessionId := sessionId
          totalChunks := totalChunks
          receivedChunks := ∅
          status := .receiving
          message := "Receiving chunks"
          details := []
          createdAt := now
          updatedAt := now })

/-- `{ ...details, ...patch }` of session-store.ts line 119. -/
def mergeDetails (details patch : List (String × String)) : List (String × String) :=
  patch.foldl (fun acc kv => setA acc kv.1 kv.2) details

/-- session-store.ts lines 113-121 (`setStatus`). -/
def setStatus (st : StoreState) (sessionId : String) (status : SessionStatus)
    (message : String) (details : Option (List (String × String))) (now : Nat) :
    Except Err StoreState :=
  match lookupA st.sessions sessionId with
  | none => .error (.sessionNotFound sessionId)
  | some s =>
      let s' := { s with
        status := status
        message := message
        updatedAt := now
        details := match details with
          | some d => mergeDetails s.details d
          | none => s.details }
      .ok ⟨setA st.sessions sessionId s', st.disk⟩

/-- `fs.rmSync(sessionDir, { recursive: true })`: drop every chunk file of the
session (session-store.ts `cleanupSessionDir`). -/
def eraseSessionDisk (disk : List ((String × Nat) × List Nat)) (sessionId : String) :
    List ((String × Nat) × List Nat) :=
  disk.filter (fun p => decide (p.1.1 ≠ sessionId))

/-- The read loop of `reassemble` (session-store.ts lines 92-95): chunk files
`chunk-0.bin .. chunk-(n-1).bin` in index order; a missing file makes
`fs.readFileSync` throw. -/
def readChunks (disk : List ((String × Nat) × List Nat)) (sessionId : String) :
    Nat → Option (List (List Nat))
  | 0 => some []
  | n + 1 => do
      let front ← readChunks disk sessionId n
      let last ← lookupA disk (sessionId, n)
      some (front ++ [last])

/-- session-store.ts lines 82-101 (`reassemble`).  The guard compares
`receivedChunks.size < totalChunks`; on success the chunk directory is removed
while the in-memory session record is left untouched. -/
def reassemble (st : StoreState) (sessionId : String) :
    Except Err (StoreState × List Nat) :=
  match lookupA st.sessions sessionId with
  | none => .error (.sessionNotFound sessionId)
  | some session =>
      if session.receivedChunks.card < session.totalChunks then
        .error (.incompleteChunks session.totalChunks session.receivedChunks.card)
      else
        match readChunks st.disk sessionId session.totalChunks with
        | none => .error (.enoent sessionId session.totalChunks)
        | some chunks =>
            .ok (⟨st.sessions, eraseSessionDisk st.disk sessionId⟩, chunks.flatten)

/-- Modelled from the spec: `startProcessing` is missing from the
session-store source under src/ — only its callers are present
(src/unnamed/part_001 `createGRRouter` line 407, src/src/routes/file.ts line
57).  Spec §4.2: "Atomic compare-and-set: if current `status ∈ {receiving,
complete}`, transition to `processing` and return true; otherwise return
false."  The store is synchronous for its caller, so the compare and the set
happen in one step. -/
def startProcessing (st : StoreState) (sessionId : String) (message : Option String)
    (now : Nat) : StoreState × Bool :=
  match lookupA st.sessions sessionId with
  | none => (st, false)
  | some s =>
      if s.status = .receiving ∨ s.status = .complete then
        (⟨setA st.sessions sessionId
            { s with
              status := .processing
              message := message.getD s.message
              updatedAt := now }, st.disk⟩, true)
      else (st, false)

/-- A linearization of `n` concurrent `startProcessing` calls on the same
session: the store's critical sections are non-suspending, so concurrent calls
execute one after the other in some order. -/
def runStarts (sessionId : String) (now : Nat) : Nat → StoreState → StoreState × List Bool
  | 0, st => (st, [])
  | n + 1, st =>
      let r := startProcessing st sessionId none now
      let rest := runStarts sessionId now n r.1
      (rest.1, r.2 :: rest.2)

/-! ## Transport crypto (src/src/services/crypto.ts) -/

/-- ASCII "AWR2" (crypto.ts line 13). -/
def V2_MAGIC : List Nat := [65, 87, 82, 50]

/-- crypto.ts lines 239-241: `blob.length > V2_MAGIC.length &&
blob.subarray(0, V2_MAGIC.length).equals(V2_MAGIC)`. -/
def isV2Envelope (blob : List Nat) : Bool :=
  decide (V2_MAGIC.length < blob.length) && decide (blob.take V2_MAGIC.length = V2_MAGIC)

inductive TransportCryptoMode where
  | v1
  | compat
  | v2
deriving DecidableEq, Repr

/-- The v2 server key; the X25519 private key itself is an external
node:crypto KeyObject and only the key id is observable here. -/
structure TransportV2Key where
  keyId : String
deriving DecidableEq

/-- The three fields `decryptPayload` reads off its config parameter, each as
the dynamic JavaScript property read yields it: `undefined` is `none`. -/
structure CryptoCfg where
  transportCryptoMode : Option TransportCryptoMode
  encryptionKey : Option (List Nat)
  transportV2Key : Option TransportV2Key
deriving DecidableEq

structure DecryptedPayload where
  metadata : List (String × String)
  data : List Nat
  transportVersion : String
  keyId : Option String
deriving DecidableEq

/-- crypto.ts lines 39-73 (`decryptPayload`): empty-payload check, envelope
dispatch on `isV2Envelope`, mode checks and config checks.  The AES-GCM/HKDF
cipher pipelines of `decryptPayloadV1` (lines 109-129, beyond its key checks)
and `decryptPayloadV2` (lines 141-211, beyond its mode/config checks, which
run before any cipher work and are kept here) call node:crypto, an external
collaborator, and are passed in as functions.  Every error raised in the body
is surfaced as a DecryptionError (machine code `DECRYPTION_FAILED`, HTTP 400),
modelled as the `Except.error` case. -/
def decryptPayload
    (decryptV1 : List Nat → List Nat → Except String DecryptedPayload)
    (decryptV2 : TransportV2Key → List Nat → Except String DecryptedPayload)
    (cfg : CryptoCfg) (blob : List Nat) : Except String DecryptedPayload :=
  if blob.length = 0 then .error "Encrypted payload is empty"
  else if isV2Envelope blob then
    if cfg.transportCryptoMode = some .v1 then
      .error "v2 transport is disabled on this server"
    else
      match cfg.transportV2Key with
      | none => .error "Server is not configured for v2 transport decryption"
      | some key => decryptV2 key blob
  else if cfg.transportCryptoMode = some .v2 then
    .error "Legacy v1 transport is disabled on this server"
  else
    match cfg.encryptionKey with
    | none => .error "Server is not configured with legacy ENCRYPTION_KEY"
    | some key => decryptV1 key blob

/-- server.ts line 62: `decryptPayload(gameData, config.encryptionKey)` passes
the raw AES key Buffer where `decryptPayload`'s config record is expected.
Property reads `transportCryptoMode`, `encryptionKey` and `transportV2Key` on
a Buffer all yield `undefined`. -/
def bufferAsCryptoCfg (_encryptionKey : List Nat) : CryptoCfg :=
  { transportCryptoMode := none, encryptionKey := none, transportV2Key := none }

/-- The envelope-decrypt middleware's decryption call (server.ts lines 49-73)
for a request whose parsed body carries a non-empty `gameData` string; `blob`
is the base64 decoding of that string. -/
def middlewareDecrypt
    (decryptV1 : List Nat → List Nat → Except String DecryptedPayload)
    (decryptV2 : TransportV2Key → List Nat → Except String DecryptedPayload)
    (encryptionKey blob : List Nat) : Except String DecryptedPayload :=
  decryptPayload decryptV1 decryptV2 (bufferAsCryptoCfg encryptionKey) blob

/-! ## Replay validation (crypto.ts lines 75-107 plus the spec's nonce cache) -/

/-- The decrypted metadata fields `validateAndStripReplayMetadata` consults.
`timestamp` is `some t` iff the field is present and passes
`Number.isInteger`; `nonce` is `some s` iff the field is present and a string;
`rest` is the remainder of the metadata object, i.e. the stripped result. -/
structure ReplayMetadata where
  timestamp : Option Int
  nonce : Option String
  rest : List (String × String)

/-- crypto.ts lines 75-107 (`validateAndStripReplayMetadata`). -/
def validateAndStripReplayMetadata (m : ReplayMetadata)
    (ttlMs clockSkewMs nowMs : Int) :
    Except String (List (String × String) × Int × String) :=
  match m.timestamp with
  | none => .error "Missing or invalid encrypted metadata field: timestamp"
  | some timestamp =>
      match m.nonce with
      | none => .error "Missing or invalid encrypted metadata field: nonce"
      | some nonce =>
          if nonce.length < 8 ∨ 256 < nonce.length then
            .error "Missing or invalid encrypted metadata field: nonce"
          else if timestamp < nowMs - ttlMs then
            .error "Encrypted request metadata timestamp is expired"
          else if nowMs + clockSkewMs < timestamp then
            .error "Encrypted request metadata timestamp is too far in the future"
          else
            .ok (m.rest, timestamp, nonce)

/-- Modelled from the spec: the envelope replay record is absent from src/ —
`validateAndStripReplayMetadata` is stateless and nothing under src/ calls it.
Spec §3: "(nonce, timestamp) for each v2 request accepted; sweep on TTL". -/
structure ReplayCache where
  seen : List (String × Int)
deriving DecidableEq

structure AcceptedRequest where
  cache : ReplayCache
  metadata : List (String × String)
  timestamp : Int
  nonce : String
deriving DecidableEq

/-- Modelled from the spec: route-level replay validation of a decrypted v2
request — the source checks of `validateAndStripReplayMetadata` followed by
the spec §4.1 rule "Within the TTL window, (nonce) MUST NOT have been observed
before from any prior accepted request; first-seen wins", recording the nonce
of each accepted request. -/
def acceptRequest (c : ReplayCache) (m : ReplayMetadata)
    (ttlMs clockSkewMs nowMs : Int) : Except String AcceptedRequest :=
  match validateAndStripReplayMetadata m ttlMs clockSkewMs nowMs with
  | .error e => .error e
  | .ok (rest, timestamp, nonce) =>
      if c.seen.any (fun p => decide (p.1 = nonce) && decide (nowMs - p.2 ≤ ttlMs)) then
        .error "Replay detected: nonce already observed within TTL window"
      else
        .ok ⟨⟨(nonce, nowMs) :: c.seen⟩, rest, timestamp, nonce⟩

/-! ## File store (src/src/services/file-store.ts) -/

inductive FileErr where
  | store (e : Err)
  | sizeMismatch (expected got : Nat)
  | fileTooLarge (size maxBytes : Nat)
  | sha256Mismatch (expected got : String)
  | fileExists (path : String)
deriving DecidableEq, Repr

/-- Machine code of the file-store error (RelayError codes of file-store.ts). -/
def FileErr.code : FileErr → String
  | .store e => e.code
  | .sizeMismatch _ _ => "SIZE_MISMATCH"
  | .fileTooLarge _ _ => "FILE_TOO_LARGE"
  | .sha256Mismatch _ _ => "SHA256_MISMATCH"
  | .fileExists _ => "FILE_EXISTS"

/-- HTTP status: RelayError defaults to 400; FILE_EXISTS passes 409. -/
def FileErr.httpStatus : FileErr → Nat
  | .store e => e.httpStatus
  | .sizeMismatch _ _ => 400
  | .fileTooLarge _ _ => 400
  | .sha256Mismatch _ _ => 400
  | .fileExists _ => 409

/-- JavaScript `String.prototype.toLowerCase()` restricted to ASCII — the
digests it is applied to are hex strings. -/
def lowerChar (c : Char) : Char :=
  if 'A' ≤ c ∧ c ≤ 'Z' then Char.ofNat (c.toNat + 32) else c

def toLowerAscii (s : String) : String := String.mk (s.data.map lowerChar)

def isUnsafeChar (c : Char) : Bool :=
  c.toNat ≤ 0x1f || c.toNat = 0x7f || c = '/' || c = '\\' || c = ':' || c = '*' ||
    c = '?' || c = '\"' || c = '<' || c = '>' || c = '|'

def isTrimChar (c : Char) : Bool := c = '_' || c = '.'

/-- `path.basename` (posix): ignore trailing separators, keep the part after
the last '/'. -/
def basenameChars (cs : List Char) : List Char :=
  let cs := ((cs.reverse.dropWhile (fun c => c = '/')).reverse)
  (cs.reverse.takeWhile (fun c => c ≠ '/')).reverse

/-- The regex replace of `/_+/g` with a single underscore. -/
def collapseUnderscores : List Char → List Char
  | [] => []
  | c :: cs =>
      match collapseUnderscores cs with
      | [] => [c]
      | d :: ds => if c = '_' ∧ d = '_' then d :: ds else c :: d :: ds

/-- file-store.ts lines 100-119 (`sanitizeFileName`): basename, replace each
character of `[\x00-\x1f\x7f/\\:*?"<>|]` by an underscore, collapse runs of
underscores, trim leading/trailing underscores and dots, fall back to
"unnamed". -/
def sanitizeFileName (fileName : String) : String :=
  let name := basenameChars fileName.toList
  let name := name.map (fun c => if isUnsafeChar c then '_' else c)
  let name := collapseUnderscores name
  let name := (((name.dropWhile isTrimChar).reverse.dropWhile isTrimChar).reverse)
  if name = [] then "unnamed" else String.mk name

/-- The destination path of file-store.ts lines 66-78 where `datedDir` is
`<fileStorageDir>/<YYYY>/<MM>/<DD>` computed from the wall clock. -/
def storedPathFor (datedDir sessionId fileName : String) : String :=
  datedDir ++ "/" ++ sessionId ++ "-" ++ sanitizeFileName fileName

/-- file-store.ts lines 32-93 (`storeFile`): reassemble, size check, max-size
check, SHA-256 check against `expectedSha256.toLowerCase()`, destination
existence check, write, result `{storedPath, storedSize}`.  SHA-256
(node:crypto `createHash`) and the filesystem probe `fs.existsSync` are
external collaborators passed as functions. -/
def storeFile (sha256Hex : List Nat → String) (fsExists : String → Bool)
    (maxFileSizeBytes : Nat) (datedDir : String)
    (st : StoreState) (sessionId fileName : String)
    (expectedSize : Nat) (expectedSha256 : String) :
    Except FileErr (StoreState × String × Nat) :=
  match reassemble st sessionId with
  | .error e => .error (.store e)
  | .ok (st', data) =>
      if data.length ≠ expectedSize then
        .error (.sizeMismatch expectedSize data.length)
      else if maxFileSizeBytes < data.length then
        .error (.fileTooLarge data.length maxFileSizeBytes)
      else
        let actualSha256 := sha256Hex data
        if actualSha256 ≠ toLowerAscii expectedSha256 then
          .error (.sha256Mismatch expectedSha256 actualSha256)
        else
          let storedPath := storedPathFor datedDir sessionId fileName
          if fsExists storedPath then
            .error (.fileExists storedPath)
          else
            .ok (st', storedPath, data.length)

/-! ## Chunk-accounting invariant and storeChunk run histories -/

/-- Spec §3 invariant 2: `|receivedChunks| ≤ totalChunks` and every index is
in `[0, totalChunks)`. -/
def chunkInvariant (st : StoreState) : Prop :=
  ∀ sessionId s, lookupA st.sessions sessionId = some s →
    s.receivedChunks.card ≤ s.totalChunks ∧ ∀ i ∈ s.receivedChunks, i < s.totalChunks

/-- The set of chunk indices a list of `storeChunk` calls touches. -/
def indexSet : List (Nat × List Nat) → Finset Nat
  | [] => ∅
  | w :: ws => insert w.1 (indexSet ws)

/-- The bytes of the last `storeChunk` call for a given index (later list
entries are later calls and win). -/
def lastWrite : List (Nat × List Nat) → Nat → Option (List Nat)
  | [], _ => none
  | w :: ws, i =>
      match lastWrite ws i with
      | some d => some d
      | none => if w.1 = i then some w.2 else none

/-- First-some choice, the shape `storeChunk` gives the on-disk chunk map:
the latest write wins, earlier content otherwise. -/
def orO {α : Type} : Option α → Option α → Option α
  | some a, _ => some a
  | none, b => b

/-- Run a sequence of `storeChunk` calls for one session: each list entry is
`(chunkIndex, bytes)`, all with the same `totalChunks` argument. -/
def applyWrites (sessionId : String) (totalChunks now : Nat) :
    List (Nat × List Nat) → StoreState → Except Err StoreState
  | [], st => .ok st
  | w :: ws, st =>
      match storeChunk st sessionId w.1 totalChunks w.2 now with
      | .error e => .error e
      | .ok r => applyWrites sessionId totalChunks now ws r.1

/-! ## Concrete states used by the closed theorems -/

/-- A small state holding one receiving session `"d"` with `totalChunks = 3`
and chunk 0 received. -/
def demoReceiving : StoreState :=
  match storeChunk StoreState.empty "d" 0 3 [1] 0 with
  | .ok r => r.1
  | .error _ => StoreState.empty

def demoSession : SessionInfo :=
  ⟨"d", 3, {0}, .receiving, "Receiving chunks", [], 0, 0⟩

/-- The state `demoReceiving` after one more `storeChunk` call. -/
def demoAfter : StoreState :=
  match storeChunk demoReceiving "d" 1 99 [2] 5 with
  | .ok r => r.1
  | .error _ => StoreState.empty

/-- First call of the invariant counterexample: `storeChunk("s", 0, 1, ...)`
creates session `"s"` with `totalChunks = 1`. -/
def cexInvSt1 : StoreState :=
  match storeChunk StoreState.empty "s" 0 1 [1] 0 with
  | .ok r => r.1
  | .error _ => StoreState.empty

/-- Second call of the invariant counterexample:
`storeChunk("s", 5, 10, ...)` — the route check `0 ≤ 5 < 10` passes, yet the
session keeps `totalChunks = 1`. -/
def cexInvSt2 : StoreState :=
  match storeChunk cexInvSt1 "s" 5 10 [2] 0 with
  | .ok r => r.1
  | .error _ => StoreState.empty

/-- Session `"s1"` of one chunk, fully uploaded. -/
def storedDemoChunked : StoreState :=
  match storeChunk StoreState.empty "s1" 0 1 [1, 2] 10 with
  | .ok r => r.1
  | .error _ => StoreState.empty

/-- ... taken to `processing` by the `/api/file/store` route's
`startProcessing` guard ... -/
def storedDemoProcessing : StoreState :=
  (startProcessing storedDemoChunked "s1" (some "Processing file") 11).1

/-- ... and marked `stored` by `processFileStore`
(src/src/routes/file.ts line 102). -/
def storedDemoStored : StoreState :=
  match setStatus storedDemoProcessing "s1" .stored "Stored file"
      (some [("storedPath", "p"), ("storedSize", "2")]) 12 with
  | .ok st => st
  | .error _ => StoreState.empty

/-- The state after one further `storeChunk` call against the `stored`
session — the call the claim says must fail with SESSION_COMPLETED. -/
def storedDemoAfter : StoreState :=
  match storeChunk storedDemoStored "s1" 0 1 [9] 13 with
  | .ok r => r.1
  | .error _ => StoreState.empty

/-- A session `"w"` of two chunks uploaded out of order (chunk 1 first). -/
def reasmSt1 : StoreState :=
  match storeChunk StoreState.empty "w" 1 2 [5] 0 with
  | .ok r => r.1
  | .error _ => StoreState.empty

def reasmSt2 : StoreState :=
  match storeChunk reasmSt1 "w" 0 2 [3] 0 with
  | .ok r => r.1
  | .error _ => StoreState.empty

def reasmDone : StoreState :=
  match reassemble reasmSt2 "w" with
  | .ok r => r.1
  | .error _ => StoreState.empty

/-- A well-formed v2 request metadata object: integer timestamp 100, a
10-character nonce, one payload field. -/
def demoReplayMeta : ReplayMetadata :=
  ⟨some 100, some "nonce-0001", [("sessionId", "x")]⟩

/-- The accepted result of `demoReplayMeta` against the empty cache at
`nowMs = 100`. -/
def demoAccepted : AcceptedRequest :=
  ⟨⟨[("nonce-0001", 100)]⟩, [("sessionId", "x")], 100, "nonce-0001"⟩

/-! ## Per-repo FIFO lock (src/unnamed/part_004 lines 13-26)

`withRepoLock` keeps, per repo key, the promise of the most recent call
(`repoLocks`).  A call synchronously reads that tail as `prev`, installs its
own promise `next`, awaits `prev`, runs `fn`, and resolves `next` in a
`finally`.  The JavaScript thread is single-threaded between awaits, so the
read-and-install prologue is atomic and the calls on one key form a chain in
call order.

The denotation below is a small-step system.  Task `i` of the registration
list can `start` (its `await prev` completes) only once the nearest earlier
task with the same key is done — `prev` is that task's promise, resolved only
by its `finally`.  While running it performs its Git operations one awaited
step at a time (`exec`), so operations of tasks holding other keys may
interleave freely.  `finish` is the `finally { resolve() }`: it is enabled
whether or not the body throws (`RepoTask.throws` records that outcome and no
rule consults it, exactly as `finally` ignores it). -/

structure RepoTask where
  key : String
  ops : List String
  throws : Bool
deriving DecidableEq, Repr

inductive LockEvent where
  | begin (key : String) (tid : Nat)
  | gitOp (key : String) (tid : Nat) (pos : Nat) (name : String)
  | release (key : String) (tid : Nat)
deriving DecidableEq, Repr

inductive Phase where
  | waiting
  | running (k : Nat)
  | done
deriving DecidableEq, Repr

structure LockSys where
  phases : List Phase
  log : List LockEvent
deriving DecidableEq, Repr

/-- The nearest `j < i` whose task holds `key`: the promise `prev` that call
`i` awaits belongs to that call. -/
def prevSameKey (tasks : List RepoTask) (key : String) : Nat → Option Nat
  | 0 => none
  | j + 1 =>
      if (tasks[j]?).map RepoTask.key = some key then some j
      else prevSameKey tasks key j

def initSys (tasks : List RepoTask) : LockSys :=
  ⟨List.replicate tasks.length .waiting, []⟩

inductive LockStep (tasks : List RepoTask) : LockSys → LockSys → Prop where
  | start (s : LockSys) (i : Nat) (t : RepoTask) :
      tasks[i]? = some t →
      s.phases[i]? = some .waiting →
      (∀ j, prevSameKey tasks t.key i = some j → s.phases[j]? = some .done) →
      LockStep tasks s ⟨s.phases.set i (.running 0), s.log ++ [.begin t.key i]⟩
  | exec (s : LockSys) (i k : Nat) (t : RepoTask) (o : String) :
      tasks[i]? = some t →
      s.phases[i]? = some (.running k) →
      t.ops[k]? = some o →
      LockStep tasks s ⟨s.phases.set i (.running (k + 1)), s.log ++ [.gitOp t.key i k o]⟩
  | finish (s : LockSys) (i k : Nat) (t : RepoTask) :
      tasks[i]? = some t →
      s.phases[i]? = some (.running k) →
      t.ops[k]? = none →
      LockStep tasks s ⟨s.phases.set i .done, s.log ++ [.release t.key i]⟩

/-- States reachable from the initial registration of `tasks`. -/
def LockReach (tasks : List RepoTask) : LockSys → Prop :=
  Relation.ReflTransGen (LockStep tasks) (initSys tasks)

/-- The inductive invariant of the lock system: the gating discipline
(a non-waiting task has every earlier same-key task done), the events each
phase guarantees in the log, and the two ordering properties the claim
needs. -/
structure LockInv (tasks : List RepoTask) (s : LockSys) : Prop where
  len : s.phases.length = tasks.length
  guard : ∀ (i : Nat) (t : RepoTask) (ph : Phase),
    tasks[i]? = some t → s.phases[i]? = some ph → ph ≠ Phase.waiting →
    ∀ (j : Nat) (t' : RepoTask), j < i → tasks[j]? = some t' → t'.key = t.key →
      s.phases[j]? = some Phase.done
  doneEvents : ∀ (i : Nat) (t : RepoTask),
    tasks[i]? = some t → s.phases[i]? = some Phase.done →
    LockEvent.release t.key i ∈ s.log ∧ LockEvent.begin t.key i ∈ s.log ∧
      ∀ (q : Nat) (o : String), t.ops[q]? = some o →
        LockEvent.gitOp t.key i q o ∈ s.log
  runEvents : ∀ (i : Nat) (t : RepoTask) (k : Nat),
    tasks[i]? = some t → s.phases[i]? = some (Phase.running k) →
    LockEvent.begin t.key i ∈ s.log ∧
      ∀ (q : Nat) (o : String), q < k → t.ops[q]? = some o →
        LockEvent.gitOp t.key i q o ∈ s.log
  ser : ∀ (i j : Nat) (ti tj : RepoTask), i < j →
    tasks[i]? = some ti → tasks[j]? = some tj → ti.key = tj.key →
    ∀ (p : Nat) (n : String), LockEvent.gitOp tj.key j p n ∈ s.log →
      ∀ (q : Nat) (o : String), ti.ops[q]? = some o →
        [LockEvent.gitOp ti.key i q o, LockEvent.gitOp tj.key j p n].Sublist s.log
  fifo : ∀ (i j : Nat) (ti tj : RepoTask), i < j →
    tasks[i]? = some ti → tasks[j]? = some tj → ti.key = tj.key →
    LockEvent.begin tj.key j ∈ s.log →
      [LockEvent.release ti.key i, LockEvent.begin tj.key j].Sublist s.log

/-- Two finalize jobs against distinct repos, the second one throwing. -/
def twoKeyTasks : List RepoTask :=
  [⟨"a/b", ["g1", "g2"], false⟩, ⟨"c/d", ["h1"], true⟩]

/-- Two finalize jobs against the same repo key. -/
def sameKeyTasks : List RepoTask :=
  [⟨"a/b", ["g1"], false⟩, ⟨"a/b", ["g2"], false⟩]

/-- The completed serial execution of `sameKeyTasks`. -/
def sameKeySerialSys : LockSys :=
  ⟨[.done, .done],
    [.begin "a/b" 0, .gitOp "a/b" 0 0 "g1", .release "a/b" 0,
      .begin "a/b" 1, .gitOp "a/b" 1 0 "g2", .release "a/b" 1]⟩

/-- An interleaved execution of `twoKeyTasks`: an operation of `"c/d"` runs
between the two operations of `"a/b"`. -/
def twoKeyInterleavedLog : List LockEvent :=
  [.begin "a/b" 0, .gitOp "a/b" 0 0 "g1", .begin "c/d" 1, .gitOp "c/d" 1 0 "h1",
    .gitOp "a/b" 0 1 "g2", .release "c/d" 1, .release "a/b" 0]

/-! ## Map lemmas -/

theorem lookupA_set_self {κ α : Type} [DecidableEq κ] (m : List (κ × α)) (k : κ) (v : α) :
    lookupA (setA m k v) k = some v := by
  simp [lookupA, setA]

theorem lookupA_filter_ne {κ α : Type} [DecidableEq κ] (m : List (κ × α)) (k k' : κ)
    (h : k' ≠ k) : lookupA (m.filter (fun p => decide (p.1 ≠ k))) k' = lookupA m k' := by
  induction m with
  | nil => rfl
  | cons p ps ih =>
    by_cases hp : p.1 = k
    · have hne : p.1 ≠ k' := by
        rw [hp]; exact fun hc => h hc.symm
      rw [List.filter_cons_of_neg (by simp [hp]), ih]
      simp [lookupA, hne]
    · rw [List.filter_cons_of_pos (by simp [hp])]
      by_cases hk' : p.1 = k'
      · simp [lookupA, hk']
      · simp only [lookupA]
        rw [if_neg hk', if_neg hk']
        exact ih

theorem lookupA_set_ne {κ α : Type} [DecidableEq κ] (m : List (κ × α)) (k k' : κ) (v : α)
    (h : k' ≠ k) : lookupA (setA m k v) k' = lookupA m k' := by
  have hne : k ≠ k' := fun hc => h hc.symm
  simp only [setA, lookupA, hne, if_false]
  exact lookupA_filter_ne m k k' h

theorem lookupA_eraseSessionDisk (disk : List ((String × Nat) × List Nat))
    (sessionId : String) (i : Nat) :
    lookupA (eraseSessionDisk disk sessionId) (sessionId, i) = none := by
  induction disk with
  | nil => rfl
  | cons p ps ih =>
    by_cases hp : p.1.1 = sessionId
    · rw [eraseSessionDisk, List.filter_cons_of_neg (by simp [hp])]
      exact ih
    · rw [eraseSessionDisk, List.filter_cons_of_pos (by simp [hp])]
      have hne : p.1 ≠ (sessionId, i) := fun hc => hp (by rw [hc])
      simp only [lookupA, hne, if_false]
      exact ih

/-! ## storeChunk equation lemmas -/

theorem storeChunk_of_some (st : StoreState) (sessionId : String)
    (chunkIndex totalChunks : Nat) (data : List Nat) (now : Nat) (s : SessionInfo)
    (h : lookupA st.sessions sessionId = some s) :
    storeChunk st sessionId chunkIndex totalChunks data now =
      if s.status = .processing ∨ s.status = .pushed ∨ s.status = .failed then
        .error (.sessionCompleted sessionId)
      else
        .ok (storeChunkWrite st sessionId chunkIndex data now s) := by
  unfold storeChunk
  rw [h]

theorem storeChunk_of_none (st : StoreState) (sessionId : String)
    (chunkIndex totalChunks : Nat) (data : List Nat) (now : Nat)
    (h : lookupA st.sessions sessionId = none) :
    storeChunk st sessionId chunkIndex totalChunks data now =
      .ok (storeChunkWrite st sessionId chunkIndex data now
        { sessionId := sessionId
          totalChunks := totalChunks
          receivedChunks := ∅
          status := .receiving
          message := "Receiving chunks"
          details := []
          createdAt := now
          updatedAt := now }) := by
  unfold storeChunk
  rw [h]

/-! ## C6 — envelope detection -/

/-- C6 (counterexample): the claim "a payload is treated as v2 iff its first
four bytes equal the ASCII magic AWR2" fails at the four-byte blob that IS the
magic: its first four bytes equal `AWR2`, yet `isV2Envelope` requires
`blob.length > 4` and routes it to the v1 path. -/
theorem isV2Envelope_magic_only_cex :
    ¬ (isV2Envelope [65, 87, 82, 50] = true ↔ [65, 87, 82, 50].take 4 = V2_MAGIC) := by
  decide

/-- C6 (amended): a payload is treated as a v2 envelope iff it is strictly
longer than four bytes AND its first four bytes equal the ASCII magic `AWR2`;
every other blob — in particular every blob of at most four bytes — goes to
the v1 path of `decryptPayload`. -/
theorem isV2Envelope_iff (blob : List Nat) :
    isV2Envelope blob = true ↔ 4 < blob.length ∧ blob.take 4 = V2_MAGIC := by
  simp [isV2Envelope, V2_MAGIC]

/-! ## C10 — the middleware wiring bug -/

/-- C10: `createApp`'s envelope middleware calls
`decryptPayload(gameData, config.encryptionKey)`, handing the raw AES key
Buffer where the config record is expected, so the `transportCryptoMode`,
`encryptionKey` and `transportV2Key` reads all yield `undefined`; hence for
every decoded payload blob — v1, v2 or malformed — the call throws a
DecryptionError (`DECRYPTION_FAILED`) before any cipher collaborator is
consulted, for any cipher collaborators whatsoever. -/
theorem middlewareDecrypt_always_fails
    (decryptV1 : List Nat → List Nat → Except String DecryptedPayload)
    (decryptV2 : TransportV2Key → List Nat → Except String DecryptedPayload)
    (encryptionKey blob : List Nat) :
    ∃ msg, middlewareDecrypt decryptV1 decryptV2 encryptionKey blob = .error msg := by
  by_cases h0 : blob.length = 0
  · exact ⟨"Encrypted payload is empty",
      by simp [middlewareDecrypt, decryptPayload, bufferAsCryptoCfg, h0]⟩
  · by_cases h1 : isV2Envelope blob
    · exact ⟨"Server is not configured for v2 transport decryption",
        by simp [middlewareDecrypt, decryptPayload, bufferAsCryptoCfg, h0, h1]⟩
    · exact ⟨"Server is not configured with legacy ENCRYPTION_KEY",
        by simp [middlewareDecrypt, decryptPayload, bufferAsCryptoCfg, h0, h1]⟩

/-! ## C3 — storeChunk after terminalization -/

/-- C3 (code evaluated at the failing input): a session driven through the
file-store pipeline to status `stored` still ACCEPTS a further `storeChunk`
call — the guard in session-store.ts line 47 checks only
`processing | pushed | failed` — overwriting the chunk on disk and returning a
received count, where the claim (and spec §4.2/§8.4) requires
`SESSION_COMPLETED` (409) with no state change. -/
theorem storeChunk_accepts_after_stored :
    (lookupA storedDemoStored.sessions "s1").map (fun s => s.status) = some .stored ∧
    storeChunk storedDemoStored "s1" 0 1 [9] 13 = .ok (storedDemoAfter, 1) ∧
    lookupA storedDemoAfter.disk ("s1", 0) = some [9] := by
  refine ⟨by decide, by decide, by decide⟩

/-! ## C8 — totalChunks is fixed by the first chunk -/

/-- C8: for an existing session, a later `storeChunk` call leaves the
session's `totalChunks` unchanged whatever `totalChunks` value it passes:
session-store.ts only reads the argument when creating the session. -/
theorem storeChunk_totalChunks_fixed
    (st : StoreState) (sessionId : String) (s : SessionInfo)
    (chunkIndex totalChunks : Nat) (data : List Nat) (now : Nat)
    (h : lookupA st.sessions sessionId = some s) :
    ∀ st' n, storeChunk st sessionId chunkIndex totalChunks data now = .ok (st', n) →
      ∃ s', lookupA st'.sessions sessionId = some s' ∧ s'.totalChunks = s.totalChunks := by
  intro st' n hok
  rw [storeChunk_of_some st sessionId chunkIndex totalChunks data now s h] at hok
  by_cases hg : s.status = .processing ∨ s.status = .pushed ∨ s.status = .failed
  · rw [if_pos hg] at hok
    cases hok
  · rw [if_neg hg] at hok
    simp only [storeChunkWrite, Except.ok.injEq, Prod.mk.injEq] at hok
    obtain ⟨hst, -⟩ := hok
    subst hst
    exact ⟨_, lookupA_set_self _ _ _, rfl⟩

/-- C8 (witness): the concrete session `"d"` was created with
`totalChunks = 3`; a later call passing `totalChunks = 99` leaves it at 3. -/
theorem storeChunk_totalChunks_fixed_witness :
    (lookupA demoReceiving.sessions "d" = some demoSession ∧
      storeChunk demoReceiving "d" 1 99 [2] 5 = .ok (demoAfter, 2)) ∧
    ∃ s', lookupA demoAfter.sessions "d" = some s' ∧
      s'.totalChunks = demoSession.totalChunks := by
  refine ⟨⟨by decide, by decide⟩, ?_⟩
  exact storeChunk_totalChunks_fixed demoReceiving "d" demoSession 1 99 [2] 5
    (by decide) demoAfter 2 (by decide)

/-! ## C5 — the receivedChunks bounds invariant -/

/-- C5 (counterexample): two completed `storeChunk` calls, each passing the
route-validated shape `0 ≤ chunkIndex < totalChunks` of its own arguments,
leave session `"s"` with `totalChunks = 1` but `receivedChunks = {5, 0}`:
the claimed invariant `|receivedChunks| ≤ totalChunks ∧ indices ⊆
[0, totalChunks)` is violated, because `storeChunk` never range-checks
`chunkIndex` against the session's stored `totalChunks`. -/
theorem chunk_invariant_violated_cex :
    storeChunk StoreState.empty "s" 0 1 [1] 0 = .ok (cexInvSt1, 1) ∧
    storeChunk cexInvSt1 "s" 5 10 [2] 0 = .ok (cexInvSt2, 2) ∧
    lookupA cexInvSt2.sessions "s" =
      some ⟨"s", 1, {5, 0}, .receiving, "Receiving chunks", [], 0, 0⟩ ∧
    ¬ chunkInvariant cexInvSt2 := by
  refine ⟨by decide, by decide, by decide, fun hinv => ?_⟩
  have h := hinv "s" ⟨"s", 1, {5, 0}, .receiving, "Receiving chunks", [], 0, 0⟩ (by decide)
  exact absurd h.1 (by decide)

/-- C5 (amended): every completed `storeChunk` call preserves the invariant
PROVIDED the call's `chunkIndex` lies below its `totalChunks` (the data
route's validation) and its `totalChunks` agrees with the session's stored
value (fixed by the first chunk); without the agreement hypothesis the
invariant can be violated, as the counterexample shows. -/
theorem storeChunk_preserves_invariant_amended
    (st : StoreState) (sessionId : String) (chunkIndex totalChunks : Nat)
    (data : List Nat) (now : Nat)
    (hinv : chunkInvariant st)
    (hidx : chunkIndex < totalChunks)
    (htot : ∀ s, lookupA st.sessions sessionId = some s → s.totalChunks = totalChunks) :
    ∀ st' n, storeChunk st sessionId chunkIndex totalChunks data now = .ok (st', n) →
      chunkInvariant st' := by
  intro st' n hok
  cases hl : lookupA st.sessions sessionId with
  | none =>
      rw [storeChunk_of_none st sessionId chunkIndex totalChunks data now hl] at hok
      simp only [storeChunkWrite, Except.ok.injEq, Prod.mk.injEq] at hok
      obtain ⟨hst, -⟩ := hok
      subst hst
      intro sid' s' hl'
      by_cases hsid : sid' = sessionId
      · subst hsid
        rw [lookupA_set_self] at hl'
        have hs' := Option.some.inj hl'
        subst hs'
        constructor
        · have hone : (insert chunkIndex (∅ : Finset Nat)).card = 1 := by simp
          show (insert chunkIndex (∅ : Finset Nat)).card ≤ totalChunks
          omega
        · intro i hi
          have hic : i = chunkIndex := by simpa using hi
          show i < totalChunks
          omega
      · rw [lookupA_set_ne _ _ _ _ hsid] at hl'
        exact hinv sid' s' hl'
  | some s =>
      rw [storeChunk_of_some st sessionId chunkIndex totalChunks data now s hl] at hok
      by_cases hg : s.status = .processing ∨ s.status = .pushed ∨ s.status = .failed
      · rw [if_pos hg] at hok
        cases hok
      · rw [if_neg hg] at hok
        simp only [storeChunkWrite, Except.ok.injEq, Prod.mk.injEq] at hok
        obtain ⟨hst, -⟩ := hok
        subst hst
        have hstot := htot s hl
        obtain ⟨hcard, hmem⟩ := hinv sessionId s hl
        intro sid' s' hl'
        by_cases hsid : sid' = sessionId
        · subst hsid
          rw [lookupA_set_self] at hl'
          have hs' := Option.some.inj hl'
          subst hs'
          have hsub : insert chunkIndex s.receivedChunks ⊆ Finset.range totalChunks := by
            intro i hi
            rcases Finset.mem_insert.mp hi with h | h
            · exact Finset.mem_range.mpr (h ▸ hidx)
            · exact Finset.mem_range.mpr (hstot ▸ hmem i h)
          have hle := Finset.card_le_card hsub
          rw [Finset.card_range] at hle
          constructor
          · show (insert chunkIndex s.receivedChunks).card ≤ s.totalChunks
            omega
          · intro i hi
            show i < s.totalChunks
            have := Finset.mem_range.mp (hsub hi)
            omega
        · rw [lookupA_set_ne _ _ _ _ hsid] at hl'
          exact hinv sid' s' hl'

/-- C5 (witness): the amended preservation applied to the first chunk of the
empty store, producing `demoReceiving`. -/
theorem storeChunk_preserves_invariant_amended_witness :
    ((0 : Nat) < 3 ∧ storeChunk StoreState.empty "d" 0 3 [1] 0 = .ok (demoReceiving, 1)) ∧
    chunkInvariant demoReceiving :=
  ⟨⟨by decide, by decide⟩,
    storeChunk_preserves_invariant_amended StoreState.empty "d" 0 3 [1] 0
      (fun _ _ h => Option.noConfusion h) (by decide)
      (fun _ h => Option.noConfusion h) demoReceiving 1 (by decide)⟩

/-! ## C1 — startProcessing compare-and-set -/

theorem startProcessing_of_some (st : StoreState) (sessionId : String)
    (msg : Option String) (now : Nat) (s : SessionInfo)
    (h : lookupA st.sessions sessionId = some s) :
    startProcessing st sessionId msg now =
      if s.status = .receiving ∨ s.status = .complete then
        (⟨setA st.sessions sessionId
            { s with
              status := .processing
              message := msg.getD s.message
              updatedAt := now }, st.disk⟩, true)
      else (st, false) := by
  unfold startProcessing
  rw [h]

theorem startProcessing_of_none (st : StoreState) (sessionId : String)
    (msg : Option String) (now : Nat)
    (h : lookupA st.sessions sessionId = none) :
    startProcessing st sessionId msg now = (st, false) := by
  unfold startProcessing
  rw [h]

/-- Once the session is out of `{receiving, complete}` every further
`startProcessing` returns false and leaves the store unchanged. -/
theorem runStarts_stuck (sessionId : String) (now : Nat) :
    ∀ (n : Nat) (st : StoreState) (s : SessionInfo),
      lookupA st.sessions sessionId = some s →
      ¬ (s.status = .receiving ∨ s.status = .complete) →
      (runStarts sessionId now n st).2.count true = 0 := by
  intro n
  induction n with
  | zero =>
      intro st s _ _
      simp [runStarts]
  | succ n ih =>
      intro st s hl hns
      have hsp : startProcessing st sessionId none now = (st, false) := by
        rw [startProcessing_of_some st sessionId none now s hl, if_neg hns]
      simp only [runStarts, hsp]
      simp [List.count_cons, ih st s hl hns]

/-- C1: `startProcessing` is the compare-and-set of spec §4.2 — it returns
true iff the session exists with status `receiving` or `complete`, in which
case the session moves to `processing`; otherwise it returns false and
changes nothing; and a linearization of `n + 1` concurrent calls against a
startable session yields exactly one true. -/
theorem startProcessing_cas_spec :
    (∀ st sessionId msg now,
      (startProcessing st sessionId msg now).2 = true ↔
        ∃ s, lookupA st.sessions sessionId = some s ∧
          (s.status = .receiving ∨ s.status = .complete)) ∧
    (∀ st sessionId msg now s, lookupA st.sessions sessionId = some s →
      (s.status = .receiving ∨ s.status = .complete) →
      ∃ s', lookupA (startProcessing st sessionId msg now).1.sessions sessionId = some s' ∧
        s'.status = .processing) ∧
    (∀ st sessionId msg now, (startProcessing st sessionId msg now).2 = false →
      (startProcessing st sessionId msg now).1 = st) ∧
    (∀ st sessionId now s n, lookupA st.sessions sessionId = some s →
      (s.status = .receiving ∨ s.status = .complete) →
      (runStarts sessionId now (n + 1) st).2.count true = 1) := by
  refine ⟨?_, ?_, ?_, ?_⟩
  · intro st sessionId msg now
    cases hl : lookupA st.sessions sessionId with
    | none =>
        rw [startProcessing_of_none st sessionId msg now hl]
        simp
    | some s =>
        rw [startProcessing_of_some st sessionId msg now s hl]
        by_cases hs : s.status = .receiving ∨ s.status = .complete
        · rw [if_pos hs]
          exact iff_of_true rfl ⟨s, rfl, hs⟩
        · rw [if_neg hs]
          constructor
          · intro hc
            cases hc
          · rintro ⟨s', hs', hstat⟩
            exact absurd ((Option.some.inj hs') ▸ hstat) hs
  · intro st sessionId msg now s hl hs
    rw [startProcessing_of_some st sessionId msg now s hl, if_pos hs]
    exact ⟨_, lookupA_set_self _ _ _, rfl⟩
  · intro st sessionId msg now hfalse
    cases hl : lookupA st.sessions sessionId with
    | none => rw [startProcessing_of_none st sessionId msg now hl]
    | some s =>
        by_cases hs : s.status = .receiving ∨ s.status = .complete
        · rw [startProcessing_of_some st sessionId msg now s hl, if_pos hs] at hfalse
          cases hfalse
        · rw [startProcessing_of_some st sessionId msg now s hl, if_neg hs]
  · intro st sessionId now s n hl hs
    have hsp := startProcessing_of_some st sessionId none now s hl
    rw [if_pos hs] at hsp
    simp only [runStarts, hsp]
    have h0 : (runStarts sessionId now n
        ⟨setA st.sessions sessionId
          { s with
            status := .processing
            message := s.message
            updatedAt := now }, st.disk⟩).2.count true = 0 := by
      apply runStarts_stuck sessionId now n _
        { s with
          status := .processing
          message := s.message
          updatedAt := now }
      · exact lookupA_set_self _ _ _
      · rintro (h | h) <;> exact SessionStatus.noConfusion h
    simp [List.count_cons, h0]

/-- C1 (witness): two linearized calls against the receiving session `"d"`
produce exactly one true. -/
theorem startProcessing_cas_spec_witness :
    (lookupA demoReceiving.sessions "d" = some demoSession ∧
      (demoSession.status = .receiving ∨ demoSession.status = .complete)) ∧
    (runStarts "d" 7 2 demoReceiving).2.count true = 1 := by
  refine ⟨⟨by decide, by decide⟩, ?_⟩
  exact startProcessing_cas_spec.2.2.2 demoReceiving "d" 7 demoSession 1 (by decide) (by decide)

/-! ## C2 — replay protection -/

theorem validateAndStrip_ts_none (m : ReplayMetadata) (ttl skew now : Int)
    (htm : m.timestamp = none) :
    validateAndStripReplayMetadata m ttl skew now =
      .error "Missing or invalid encrypted metadata field: timestamp" := by
  unfold validateAndStripReplayMetadata
  rw [htm]

theorem validateAndStrip_nonce_none (m : ReplayMetadata) (ttl skew now t : Int)
    (htm : m.timestamp = some t) (hnn : m.nonce = none) :
    validateAndStripReplayMetadata m ttl skew now =
      .error "Missing or invalid encrypted metadata field: nonce" := by
  unfold validateAndStripReplayMetadata
  rw [htm, hnn]

theorem validateAndStrip_eq (m : ReplayMetadata) (ttl skew now t : Int) (nn : String)
    (htm : m.timestamp = some t) (hnn : m.nonce = some nn) :
    validateAndStripReplayMetadata m ttl skew now =
      if nn.length < 8 ∨ 256 < nn.length then
        .error "Missing or invalid encrypted metadata field: nonce"
      else if t < now - ttl then
        .error "Encrypted request metadata timestamp is expired"
      else if now + skew < t then
        .error "Encrypted request metadata timestamp is too far in the future"
      else
        .ok (m.rest, t, nn) := by
  unfold validateAndStripReplayMetadata
  rw [htm, hnn]

theorem acceptRequest_of_error (c : ReplayCache) (m : ReplayMetadata)
    (ttl skew now : Int) (e : String)
    (hv : validateAndStripReplayMetadata m ttl skew now = .error e) :
    acceptRequest c m ttl skew now = .error e := by
  unfold acceptRequest
  rw [hv]

theorem acceptRequest_of_ok (c : ReplayCache) (m : ReplayMetadata)
    (ttl skew now : Int) (rest : List (String × String)) (ts : Int) (nonce : String)
    (hv : validateAndStripReplayMetadata m ttl skew now = .ok (rest, ts, nonce)) :
    acceptRequest c m ttl skew now =
      if (c.seen.any fun p => decide (p.1 = nonce) && decide (now - p.2 ≤ ttl)) = true then
        .error "Replay detected: nonce already observed within TTL window"
      else
        .ok ⟨⟨(nonce, now) :: c.seen⟩, rest, ts, nonce⟩ := by
  unfold acceptRequest
  rw [hv]

theorem validateAndStrip_ok_elim (m : ReplayMetadata) (ttl skew now : Int)
    (rest : List (String × String)) (ts : Int) (nonce : String)
    (hv : validateAndStripReplayMetadata m ttl skew now = .ok (rest, ts, nonce)) :
    m.nonce = some nonce ∧ 8 ≤ nonce.length ∧ nonce.length ≤ 256 := by
  cases htm : m.timestamp with
  | none => rw [validateAndStrip_ts_none m ttl skew now htm] at hv; cases hv
  | some t =>
      cases hnn : m.nonce with
      | none => rw [validateAndStrip_nonce_none m ttl skew now t htm hnn] at hv; cases hv
      | some nn =>
          rw [validateAndStrip_eq m ttl skew now t nn htm hnn] at hv
          by_cases hlen : nn.length < 8 ∨ 256 < nn.length
          · rw [if_pos hlen] at hv; cases hv
          · rw [if_neg hlen] at hv
            by_cases hexp : t < now - ttl
            · rw [if_pos hexp] at hv; cases hv
            · rw [if_neg hexp] at hv
              by_cases hfut : now + skew < t
              · rw [if_pos hfut] at hv; cases hv
              · rw [if_neg hfut] at hv
                cases hv
                exact ⟨rfl, by omega, by omega⟩

/-- C2: any request accepted by the replay validation carries a nonce of
length in `[8, 256]` that differs from every nonce recorded within `ttlMs`,
and of two requests carrying the same `(nonce, timestamp)` within the TTL
window the first is accepted and the second is rejected — first-seen wins. -/
theorem replay_first_seen_wins :
    (∀ (c : ReplayCache) (m : ReplayMetadata) (ttl skew now : Int)
        (r : AcceptedRequest),
      acceptRequest c m ttl skew now = .ok r →
        8 ≤ r.nonce.length ∧ r.nonce.length ≤ 256 ∧
        ∀ p ∈ c.seen, p.1 = r.nonce → ttl < now - p.2) ∧
    (∀ (c : ReplayCache) (m m' : ReplayMetadata) (ttl skew now now' : Int)
        (r : AcceptedRequest),
      acceptRequest c m ttl skew now = .ok r →
      m'.nonce = some r.nonce →
      m'.timestamp = some r.timestamp →
      now' - now ≤ ttl →
      ∃ e, acceptRequest r.cache m' ttl skew now' = .error e) := by
  constructor
  · intro c m ttl skew now r hok
    cases hv : validateAndStripReplayMetadata m ttl skew now with
    | error e => rw [acceptRequest_of_error c m ttl skew now e hv] at hok; cases hok
    | ok trip =>
        obtain ⟨rest, ts, nonce⟩ := trip
        rw [acceptRequest_of_ok c m ttl skew now rest ts nonce hv] at hok
        by_cases hany :
            (c.seen.any fun p => decide (p.1 = nonce) && decide (now - p.2 ≤ ttl)) = true
        · rw [if_pos hany] at hok; cases hok
        · rw [if_neg hany] at hok
          have hr := Except.ok.inj hok
          subst hr
          obtain ⟨-, h8, h256⟩ := validateAndStrip_ok_elim m ttl skew now rest ts nonce hv
          refine ⟨h8, h256, ?_⟩
          intro p hp hpn
          rw [List.any_eq_true] at hany
          push_neg at hany
          have hfp := hany p hp
          simp [hpn] at hfp
          omega
  · intro c m m' ttl skew now now' r hok hm'n hm't hwin
    cases hv : validateAndStripReplayMetadata m ttl skew now with
    | error e => rw [acceptRequest_of_error c m ttl skew now e hv] at hok; cases hok
    | ok trip =>
        obtain ⟨rest, ts, nonce⟩ := trip
        rw [acceptRequest_of_ok c m ttl skew now rest ts nonce hv] at hok
        by_cases hany :
            (c.seen.any fun p => decide (p.1 = nonce) && decide (now - p.2 ≤ ttl)) = true
        · rw [if_pos hany] at hok; cases hok
        · rw [if_neg hany] at hok
          have hr := Except.ok.inj hok
          subst hr
          cases hv' : validateAndStripReplayMetadata m' ttl skew now' with
          | error e => exact ⟨e, acceptRequest_of_error _ m' ttl skew now' e hv'⟩
          | ok trip' =>
              obtain ⟨rest', ts', nonce'⟩ := trip'
              obtain ⟨hm'nonce, -, -⟩ :=
                validateAndStrip_ok_elim m' ttl skew now' rest' ts' nonce' hv'
              rw [hm'n] at hm'nonce
              have hnn := Option.some.inj hm'nonce
              have hnonce : nonce = nonce' := hnn
              have hanytrue :
                  ((((nonce, now) :: c.seen)).any
                    fun p => decide (p.1 = nonce') && decide (now' - p.2 ≤ ttl)) = true := by
                simp [List.any_cons]
                exact Or.inl ⟨hnonce, by omega⟩
              exact ⟨"Replay detected: nonce already observed within TTL window",
                by rw [acceptRequest_of_ok _ m' ttl skew now' rest' ts' nonce' hv',
                  if_pos hanytrue]⟩

/-- C2 (witness): a concrete request accepted at `now = 100` and replayed at
`now' = 200` with identical `(nonce, timestamp)` inside a 300 000 ms TTL:
the replay is rejected. -/
theorem replay_first_seen_wins_witness :
    (acceptRequest ⟨[]⟩ demoReplayMeta 300000 30000 100 = .ok demoAccepted ∧
      demoReplayMeta.nonce = some demoAccepted.nonce ∧
      demoReplayMeta.timestamp = some demoAccepted.timestamp ∧
      (200 : Int) - 100 ≤ 300000) ∧
    ∃ e, acceptRequest demoAccepted.cache demoReplayMeta 300000 30000 200 = .error e := by
  refine ⟨⟨by decide, by decide, by decide, by decide⟩, ?_⟩
  exact replay_first_seen_wins.2 ⟨[]⟩ demoReplayMeta demoReplayMeta 300000 30000 100 200
    demoAccepted (by decide) (by decide) (by decide) (by decide)

/-! ## C7 — storeFile integrity pipeline -/

theorem storeFile_eq (sha256Hex : List Nat → String) (fsExists : String → Bool)
    (maxFileSizeBytes : Nat) (datedDir : String)
    (st st1 : StoreState) (sessionId fileName : String)
    (expectedSize : Nat) (expectedSha256 : String) (data : List Nat)
    (hre : reassemble st sessionId = .ok (st1, data)) :
    storeFile sha256Hex fsExists maxFileSizeBytes datedDir st sessionId fileName
        expectedSize expectedSha256 =
      if data.length ≠ expectedSize then
        .error (.sizeMismatch expectedSize data.length)
      else if maxFileSizeBytes < data.length then
        .error (.fileTooLarge data.length maxFileSizeBytes)
      else if sha256Hex data ≠ toLowerAscii expectedSha256 then
        .error (.sha256Mismatch expectedSha256 (sha256Hex data))
      else if fsExists (storedPathFor datedDir sessionId fileName) then
        .error (.fileExists (storedPathFor datedDir sessionId fileName))
      else
        .ok (st1, storedPathFor datedDir sessionId fileName, data.length) := by
  unfold storeFile
  rw [hre]

/-- C7: `storeFile` succeeds with `{storedPath, storedSize = data.length}` iff
the reassembled data has exactly the expected size, does not exceed
`maxFileSizeBytes`, its SHA-256 hex digest equals `expectedSha256`
case-insensitively, and the destination does not exist; otherwise it fails
with `SIZE_MISMATCH`, `FILE_TOO_LARGE`, `SHA256_MISMATCH` or `FILE_EXISTS`,
checked in that order.  The digest collaborator emits lowercase hex
(`hlow`). -/
theorem storeFile_spec (sha256Hex : List Nat → String) (fsExists : String → Bool)
    (maxFileSizeBytes : Nat) (datedDir : String)
    (st st1 : StoreState) (sessionId fileName : String)
    (expectedSize : Nat) (expectedSha256 : String) (data : List Nat)
    (hre : reassemble st sessionId = .ok (st1, data))
    (hlow : toLowerAscii (sha256Hex data) = sha256Hex data) :
    (storeFile sha256Hex fsExists maxFileSizeBytes datedDir st sessionId fileName
        expectedSize expectedSha256 =
      .ok (st1, storedPathFor datedDir sessionId fileName, data.length) ↔
      (data.length = expectedSize ∧ data.length ≤ maxFileSizeBytes ∧
        toLowerAscii (sha256Hex data) = toLowerAscii expectedSha256 ∧
        fsExists (storedPathFor datedDir sessionId fileName) = false)) ∧
    (data.length ≠ expectedSize →
      storeFile sha256Hex fsExists maxFileSizeBytes datedDir st sessionId fileName
          expectedSize expectedSha256 =
        .error (.sizeMismatch expectedSize data.length)) ∧
    (data.length = expectedSize → maxFileSizeBytes < data.length →
      storeFile sha256Hex fsExists maxFileSizeBytes datedDir st sessionId fileName
          expectedSize expectedSha256 =
        .error (.fileTooLarge data.length maxFileSizeBytes)) ∧
    (data.length = expectedSize → data.length ≤ maxFileSizeBytes →
      sha256Hex data ≠ toLowerAscii expectedSha256 →
      storeFile sha256Hex fsExists maxFileSizeBytes datedDir st sessionId fileName
          expectedSize expectedSha256 =
        .error (.sha256Mismatch expectedSha256 (sha256Hex data))) ∧
    (data.length = expectedSize → data.length ≤ maxFileSizeBytes →
      sha256Hex data = toLowerAscii expectedSha256 →
      fsExists (storedPathFor datedDir sessionId fileName) = true →
      storeFile sha256Hex fsExists maxFileSizeBytes datedDir st sessionId fileName
          expectedSize expectedSha256 =
        .error (.fileExists (storedPathFor datedDir sessionId fileName))) := by
  have heq := storeFile_eq sha256Hex fsExists maxFileSizeBytes datedDir st st1 sessionId
    fileName expectedSize expectedSha256 data hre
  refine ⟨?_, ?_, ?_, ?_, ?_⟩
  · constructor
    · intro hok
      rw [heq] at hok
      by_cases h1 : data.length = expectedSize
      · rw [if_neg (fun hc => hc h1)] at hok
        by_cases h2 : maxFileSizeBytes < data.length
        · rw [if_pos h2] at hok; cases hok
        · rw [if_neg h2] at hok
          by_cases h3 : sha256Hex data = toLowerAscii expectedSha256
          · rw [if_neg (fun hc => hc h3)] at hok
            cases hb : fsExists (storedPathFor datedDir sessionId fileName) with
            | true => rw [if_pos hb] at hok; cases hok
            | false =>
                refine ⟨h1, by omega, ?_, rfl⟩
                rw [hlow, h3]
          · rw [if_pos h3] at hok; cases hok
      · rw [if_pos h1] at hok; cases hok
    · rintro ⟨h1, h2, h3, h4⟩
      rw [heq, if_neg (fun hc => hc h1), if_neg (by omega),
        if_neg (fun hc => hc (by rw [← hlow, h3])), if_neg (by simp [h4])]
  · intro h1
    rw [heq, if_pos h1]
  · intro h1 h2
    rw [heq, if_neg (fun hc => hc h1), if_pos h2]
  · intro h1 h2 h3
    rw [heq, if_neg (fun hc => hc h1), if_neg (by omega), if_pos h3]
  · intro h1 h2 h3 h4
    rw [heq, if_neg (fun hc => hc h1), if_neg (by omega), if_neg (fun hc => hc h3),
      if_pos h4]

/-- C7 (witness): the two-chunk session `"w"` reassembles to `[3, 5]`; with a
stub digest returning `"ab12"` and an uppercase expected digest `"AB12"`, an
absent destination and limit 100, `storeFile` succeeds with the stored size
2. -/
theorem storeFile_spec_witness :
    (reassemble reasmSt2 "w" = .ok (reasmDone, [3, 5]) ∧
      toLowerAscii ((fun _ : List Nat => "ab12") [3, 5]) = "ab12") ∧
    storeFile (fun _ => "ab12") (fun _ => false) 100 "/files" reasmSt2 "w" "name.txt"
        2 "AB12" =
      .ok (reasmDone, storedPathFor "/files" "w" "name.txt", 2) := by
  refine ⟨⟨by decide, by decide⟩, ?_⟩
  exact (storeFile_spec (fun _ => "ab12") (fun _ => false) 100 "/files" reasmSt2 reasmDone
    "w" "name.txt" 2 "AB12" [3, 5] (by decide) (by decide)).1.mpr
    ⟨by decide, by decide, by decide, rfl⟩

/-! ## C4 — reassembly -/

theorem lastWrite_isSome_of_mem (ws : List (Nat × List Nat)) (i : Nat)
    (h : i ∈ indexSet ws) : ∃ d, lastWrite ws i = some d := by
  induction ws with
  | nil => simp [indexSet] at h
  | cons w ws ih =>
      have hcons : lastWrite (w :: ws) i =
          match lastWrite ws i with
          | some d => some d
          | none => if w.1 = i then some w.2 else none := rfl
      rw [indexSet] at h
      cases hlast : lastWrite ws i with
      | some d =>
          refine ⟨d, ?_⟩
          rw [hcons, hlast]
      | none =>
          rcases Finset.mem_insert.mp h with h1 | h1
          · refine ⟨w.2, ?_⟩
            rw [hcons, hlast, if_pos h1.symm]
          · obtain ⟨d, hd⟩ := ih h1
            rw [hlast] at hd
            cases hd

/-- Running `storeChunk` calls against a receiving session accumulates the
call indices into `receivedChunks`, keeps every other session field, and
leaves the last-written bytes per chunk index on disk. -/
theorem applyWrites_receiving (sessionId : String) (totalChunks now : Nat) :
    ∀ (ws : List (Nat × List Nat)) (st : StoreState) (s : SessionInfo),
      lookupA st.sessions sessionId = some s →
      s.status = .receiving →
      ∃ st' s',
        applyWrites sessionId totalChunks now ws st = .ok st' ∧
        lookupA st'.sessions sessionId = some s' ∧
        s'.status = .receiving ∧
        s'.totalChunks = s.totalChunks ∧
        s'.receivedChunks = s.receivedChunks ∪ indexSet ws ∧
        (∀ i, lookupA st'.disk (sessionId, i) =
          orO (lastWrite ws i) (lookupA st.disk (sessionId, i))) := by
  intro ws
  induction ws with
  | nil =>
      intro st s hl hs
      exact ⟨st, s, rfl, hl, hs, rfl, by simp [indexSet], fun i => rfl⟩
  | cons w ws ih =>
      intro st s hl hs
      have hguard : ¬(s.status = .processing ∨ s.status = .pushed ∨ s.status = .failed) := by
        rw [hs]
        rintro (h | h | h) <;> cases h
      have hsc := storeChunk_of_some st sessionId w.1 totalChunks w.2 now s hl
      rw [if_neg hguard] at hsc
      obtain ⟨st', s', hap, hl', hs', htot', hrecv', hdisk'⟩ :=
        ih ⟨setA st.sessions sessionId
              { s with receivedChunks := insert w.1 s.receivedChunks, updatedAt := now },
            setA st.disk (sessionId, w.1) w.2⟩
          { s with receivedChunks := insert w.1 s.receivedChunks, updatedAt := now }
          (lookupA_set_self _ _ _) hs
      have happly : applyWrites sessionId totalChunks now (w :: ws) st = .ok st' := by
        show (match storeChunk st sessionId w.1 totalChunks w.2 now with
          | Except.error e => Except.error e
          | Except.ok r => applyWrites sessionId totalChunks now ws r.1) = .ok st'
        rw [hsc]
        exact hap
      refine ⟨st', s', happly, hl', hs', htot', ?_, ?_⟩
      · rw [hrecv']
        show insert w.1 s.receivedChunks ∪ indexSet ws =
          s.receivedChunks ∪ insert w.1 (indexSet ws)
        rw [Finset.insert_union, Finset.union_insert]
      · intro i
        rw [hdisk' i]
        have hcons : lastWrite (w :: ws) i =
            match lastWrite ws i with
            | some d => some d
            | none => if w.1 = i then some w.2 else none := rfl
        cases hlast : lastWrite ws i with
        | some d =>
            rw [hcons, hlast]
            rfl
        | none =>
            rw [hcons, hlast]
            by_cases hwi : w.1 = i
            · subst hwi
              rw [if_pos rfl, lookupA_set_self]
              rfl
            · have hkey : ((sessionId, i) : String × Nat) ≠ (sessionId, w.1) := by
                intro hc
                injection hc with h1 h2
                exact hwi h2.symm
              rw [if_neg hwi, lookupA_set_ne _ _ _ _ hkey]

theorem readChunks_of_covered (disk : List ((String × Nat) × List Nat))
    (sessionId : String) (g : Nat → List Nat) :
    ∀ n, (∀ i, i < n → lookupA disk (sessionId, i) = some (g i)) →
      readChunks disk sessionId n = some ((List.range n).map g) := by
  intro n
  induction n with
  | zero => intro _; simp [readChunks]
  | succ n ih =>
      intro h
      have hr := ih (fun i hi => h i (Nat.lt_succ_of_lt hi))
      show (do
        let front ← readChunks disk sessionId n
        let last ← lookupA disk (sessionId, n)
        some (front ++ [last])) = some ((List.range (n + 1)).map g)
      rw [hr, h n (Nat.lt_succ_self n)]
      simp [List.range_succ]

theorem reassemble_of_some (st : StoreState) (sessionId : String) (s : SessionInfo)
    (h : lookupA st.sessions sessionId = some s) :
    reassemble st sessionId =
      if s.receivedChunks.card < s.totalChunks then
        .error (.incompleteChunks s.totalChunks s.receivedChunks.card)
      else
        match readChunks st.disk sessionId s.totalChunks with
        | none => .error (.enoent sessionId s.totalChunks)
        | some chunks =>
            .ok (⟨st.sessions, eraseSessionDisk st.disk sessionId⟩, chunks.flatten) := by
  unfold reassemble
  rw [h]

/-- C4: for any sequence of `storeChunk` calls — any order, duplicates
allowed — whose index set is exactly `{0 .. totalChunks-1}`, reassembly
returns the in-index-order concatenation of the last bytes stored per chunk,
deletes the session's on-disk chunks and retains the in-memory session
record; and for any session with fewer received chunks than `totalChunks`,
`reassemble` fails with `INCOMPLETE_CHUNKS` carrying the expected and
received counts (and, returning only the error, changes nothing). -/
theorem reassemble_spec :
    (∀ (sessionId : String) (totalChunks now : Nat) (ws : List (Nat × List Nat))
        (st0 : StoreState),
      lookupA st0.sessions sessionId = none →
      0 < totalChunks →
      indexSet ws = Finset.range totalChunks →
      ∃ st1 s1 st2,
        applyWrites sessionId totalChunks now ws st0 = .ok st1 ∧
        lookupA st1.sessions sessionId = some s1 ∧
        s1.totalChunks = totalChunks ∧
        s1.receivedChunks.card = totalChunks ∧
        reassemble st1 sessionId =
          .ok (st2, ((List.range totalChunks).map
            (fun i => (lastWrite ws i).getD [])).flatten) ∧
        st2.sessions = st1.sessions ∧
        (∀ i, lookupA st2.disk (sessionId, i) = none)) ∧
    (∀ (st : StoreState) (sessionId : String) (s : SessionInfo),
      lookupA st.sessions sessionId = some s →
      s.receivedChunks.card < s.totalChunks →
      reassemble st sessionId =
        .error (.incompleteChunks s.totalChunks s.receivedChunks.card)) := by
  constructor
  · intro sessionId total now ws st0 habs htotpos hcover
    cases ws with
    | nil =>
        exfalso
        have hne : (Finset.range total).Nonempty := ⟨0, Finset.mem_range.mpr htotpos⟩
        rw [← hcover] at hne
        simp [indexSet] at hne
    | cons w ws0 =>
        have hsc := storeChunk_of_none st0 sessionId w.1 total w.2 now habs
        obtain ⟨st1, s1, hap, hl1, hs1, htot1, hrecv1, hdisk1⟩ :=
          applyWrites_receiving sessionId total now ws0
            ⟨setA st0.sessions sessionId
                { sessionId := sessionId
                  totalChunks := total
                  receivedChunks := insert w.1 ∅
                  status := .receiving
                  message := "Receiving chunks"
                  details := []
                  createdAt := now
                  updatedAt := now },
              setA st0.disk (sessionId, w.1) w.2⟩
            { sessionId := sessionId
              totalChunks := total
              receivedChunks := insert w.1 ∅
              status := .receiving
              message := "Receiving chunks"
              details := []
              createdAt := now
              updatedAt := now }
            (lookupA_set_self _ _ _) rfl
        have happly : applyWrites sessionId total now (w :: ws0) st0 = .ok st1 := by
          show (match storeChunk st0 sessionId w.1 total w.2 now with
            | Except.error e => Except.error e
            | Except.ok r => applyWrites sessionId total now ws0 r.1) = .ok st1
          rw [hsc]
          exact hap
        have hcover' : insert w.1 (indexSet ws0) = Finset.range total := hcover
        have hrecvAll : s1.receivedChunks = Finset.range total := by
          rw [hrecv1]
          show insert w.1 (∅ : Finset Nat) ∪ indexSet ws0 = Finset.range total
          rw [Finset.insert_union, Finset.empty_union, hcover']
        have hcard : s1.receivedChunks.card = total := by
          rw [hrecvAll, Finset.card_range]
        have htotal1 : s1.totalChunks = total := htot1
        have hread : ∀ i, i < total →
            lookupA st1.disk (sessionId, i) =
              some ((lastWrite (w :: ws0) i).getD []) := by
          intro i hi
          have himem : i ∈ indexSet (w :: ws0) := by
            rw [hcover]
            exact Finset.mem_range.mpr hi
          obtain ⟨d, hd⟩ := lastWrite_isSome_of_mem (w :: ws0) i himem
          have hcons : lastWrite (w :: ws0) i =
              match lastWrite ws0 i with
              | some d => some d
              | none => if w.1 = i then some w.2 else none := rfl
          rw [hdisk1 i]
          cases hlast : lastWrite ws0 i with
          | some d0 =>
              rw [hcons, hlast]
              rfl
          | none =>
              rw [hcons, hlast] at hd
              rw [hcons, hlast]
              by_cases hwi : w.1 = i
              · subst hwi
                rw [if_pos rfl, lookupA_set_self]
                rfl
              · rw [if_neg hwi] at hd
                cases hd
        have hreadAll := readChunks_of_covered st1.disk sessionId
          (fun i => (lastWrite (w :: ws0) i).getD []) total hread
        refine ⟨st1, s1, ⟨st1.sessions, eraseSessionDisk st1.disk sessionId⟩,
          happly, hl1, htotal1, hcard, ?_, rfl, ?_⟩
        · rw [reassemble_of_some st1 sessionId s1 hl1, if_neg (by omega), htotal1,
            hreadAll]
        · intro i
          exact lookupA_eraseSessionDisk st1.disk sessionId i
  · intro st sessionId s hl hlt
    rw [reassemble_of_some st sessionId s hl, if_pos hlt]

/-- C4 (witness): three calls for a 2-chunk session `"w"` — indices 1, 0,
then 1 again with fresh bytes — reassemble to `[3] ++ [7]`, the in-order
concatenation of the last bytes per index. -/
theorem reassemble_spec_witness :
    (lookupA StoreState.empty.sessions "w" = none ∧ (0 : Nat) < 2 ∧
      indexSet [(1, [5]), (0, [3]), (1, [7])] = Finset.range 2 ∧
      ((List.range 2).map
        (fun i => (lastWrite [(1, [5]), (0, [3]), (1, [7])] i).getD [])).flatten =
        [3, 7]) ∧
    ∃ st1 s1 st2,
      applyWrites "w" 2 0 [(1, [5]), (0, [3]), (1, [7])] StoreState.empty = .ok st1 ∧
      lookupA st1.sessions "w" = some s1 ∧
      s1.totalChunks = 2 ∧
      s1.receivedChunks.card = 2 ∧
      reassemble st1 "w" = .ok (st2, ((List.range 2).map
        (fun i => (lastWrite [(1, [5]), (0, [3]), (1, [7])] i).getD [])).flatten) ∧
      st2.sessions = st1.sessions ∧
      (∀ i, lookupA st2.disk ("w", i) = none) := by
  refine ⟨⟨rfl, by decide, by decide, by decide⟩, ?_⟩
  exact reassemble_spec.1 "w" 2 0 [(1, [5]), (0, [3]), (1, [7])] StoreState.empty rfl
    (by decide) (by decide)

/-! ## C9 — per-repo FIFO lock -/

theorem prevSameKey_lt (tasks : List RepoTask) (key : String) :
    ∀ i j, prevSameKey tasks key i = some j → j < i := by
  intro i
  induction i with
  | zero => intro j h; cases h
  | succ i ih =>
      intro j h
      by_cases hc : (tasks[i]?).map RepoTask.key = some key
      · rw [prevSameKey, if_pos hc] at h
        cases h
        exact Nat.lt_succ_self i
      · rw [prevSameKey, if_neg hc] at h
        exact Nat.lt_succ_of_lt (ih j h)

theorem prevSameKey_key (tasks : List RepoTask) (key : String) :
    ∀ i j, prevSameKey tasks key i = some j →
      (tasks[j]?).map RepoTask.key = some key := by
  intro i
  induction i with
  | zero => intro j h; cases h
  | succ i ih =>
      intro j h
      by_cases hc : (tasks[i]?).map RepoTask.key = some key
      · rw [prevSameKey, if_pos hc] at h
        cases h
        exact hc
      · rw [prevSameKey, if_neg hc] at h
        exact ih j h

theorem prevSameKey_maximal (tasks : List RepoTask) (key : String) :
    ∀ i j, prevSameKey tasks key i = some j →
      ∀ j', j < j' → j' < i → (tasks[j']?).map RepoTask.key ≠ some key := by
  intro i
  induction i with
  | zero => intro j h; cases h
  | succ i ih =>
      intro j h j' hjj' hj'i
      by_cases hc : (tasks[i]?).map RepoTask.key = some key
      · rw [prevSameKey, if_pos hc] at h
        cases h
        omega
      · rw [prevSameKey, if_neg hc] at h
        by_cases hj'eq : j' = i
        · subst hj'eq
          exact hc
        · exact ih j h j' hjj' (by omega)

theorem prevSameKey_none (tasks : List RepoTask) (key : String) :
    ∀ i, prevSameKey tasks key i = none →
      ∀ j, j < i → (tasks[j]?).map RepoTask.key ≠ some key := by
  intro i
  induction i with
  | zero => intro _ j hj; omega
  | succ i ih =>
      intro h j hj
      by_cases hc : (tasks[i]?).map RepoTask.key = some key
      · rw [prevSameKey, if_pos hc] at h
        cases h
      · rw [prevSameKey, if_neg hc] at h
        by_cases hjeq : j = i
        · subst hjeq
          exact hc
        · exact ih h j (by omega)

theorem lockInv_init (tasks : List RepoTask) : LockInv tasks (initSys tasks) := by
  refine ⟨by simp [initSys], ?_, ?_, ?_, ?_, ?_⟩
  · intro i t ph _ hph hne
    rw [show (initSys tasks).phases = List.replicate tasks.length .waiting from rfl,
      List.getElem?_replicate] at hph
    by_cases hi : i < tasks.length
    · rw [if_pos hi] at hph
      exact absurd (Option.some.inj hph).symm hne
    · rw [if_neg hi] at hph
      cases hph
  · intro i t _ hph
    rw [show (initSys tasks).phases = List.replicate tasks.length .waiting from rfl,
      List.getElem?_replicate] at hph
    by_cases hi : i < tasks.length
    · rw [if_pos hi] at hph
      cases Option.some.inj hph
    · rw [if_neg hi] at hph
      cases hph
  · intro i t k _ hph
    rw [show (initSys tasks).phases = List.replicate tasks.length .waiting from rfl,
      List.getElem?_replicate] at hph
    by_cases hi : i < tasks.length
    · rw [if_pos hi] at hph
      cases Option.some.inj hph
    · rw [if_neg hi] at hph
      cases hph
  · intro i j ti tj _ _ _ _ p n hmem
    simp [initSys] at hmem
  · intro i j ti tj _ _ _ _ hmem
    simp [initSys] at hmem

/-- Although each call awaits only its immediate same-key predecessor, the
chain discipline yields: when call `i` may start, EVERY earlier same-key call
is done. -/
theorem start_all_done {tasks : List RepoTask} {s : LockSys} (hinv : LockInv tasks s)
    {i : Nat} {t : RepoTask} (_ht : tasks[i]? = some t)
    (hprev : ∀ j, prevSameKey tasks t.key i = some j → s.phases[j]? = some .done) :
    ∀ (j : Nat) (t' : RepoTask), j < i → tasks[j]? = some t' → t'.key = t.key →
      s.phases[j]? = some .done := by
  intro j t' hj htj hkey
  cases hp : prevSameKey tasks t.key i with
  | none =>
      exact absurd (by rw [htj]; simp [hkey])
        (prevSameKey_none tasks t.key i hp j hj)
  | some jp =>
      have hdonejp := hprev jp hp
      have htjp := prevSameKey_key tasks t.key i jp hp
      cases htp : tasks[jp]? with
      | none => rw [htp] at htjp; cases htjp
      | some tp =>
          rw [htp] at htjp
          have htpkey : tp.key = t.key := by simpa using htjp
          rcases lt_trichotomy j jp with h1 | h1 | h1
          · exact hinv.guard jp tp .done htp hdonejp (by simp) j t' h1 htj
              (by rw [hkey, htpkey])
          · subst h1
            rw [htp] at htj
            exact hdonejp
          · exact absurd (by rw [htj]; simp [hkey])
              (prevSameKey_maximal tasks t.key i jp hp j h1 hj)

theorem LockInv.step {tasks : List RepoTask} {s s' : LockSys}
    (hinv : LockInv tasks s) (hstep : LockStep tasks s s') : LockInv tasks s' := by
  cases hstep with
  | start i t ht hw hprev =>
      obtain ⟨hilen, -⟩ := List.getElem?_eq_some.mp hw
      have halldone := start_all_done hinv ht hprev
      refine ⟨?_, ?_, ?_, ?_, ?_, ?_⟩
      · simp [List.length_set, hinv.len]
      · intro i' t'' ph hti' hph hne j t' hj htj hkey
        by_cases hii : i' = i
        · subst hii
          rw [ht] at hti'
          have hteq := Option.some.inj hti'
          subst hteq
          have hji : ¬ i' = j := by omega
          rw [List.getElem?_set_ne hji]
          exact halldone j t' hj htj hkey
        · rw [List.getElem?_set_ne (fun hc => hii hc.symm)] at hph
          by_cases hji : j = i
          · subst hji
            have hold := hinv.guard i' t'' ph hti' hph hne j t' hj htj hkey
            rw [hw] at hold
            cases Option.some.inj hold
          · rw [List.getElem?_set_ne (fun hc => hji hc.symm)]
            exact hinv.guard i' t'' ph hti' hph hne j t' hj htj hkey
      · intro i' t'' hti' hph
        by_cases hii : i' = i
        · subst hii
          rw [List.getElem?_set_self hilen] at hph
          cases Option.some.inj hph
        · rw [List.getElem?_set_ne (fun hc => hii hc.symm)] at hph
          obtain ⟨h1, h2, h3⟩ := hinv.doneEvents i' t'' hti' hph
          exact ⟨List.mem_append_left _ h1, List.mem_append_left _ h2,
            fun q o ho => List.mem_append_left _ (h3 q o ho)⟩
      · intro i' t'' k' hti' hph
        by_cases hii : i' = i
        · subst hii
          rw [ht] at hti'
          have hteq := Option.some.inj hti'
          subst hteq
          rw [List.getElem?_set_self hilen] at hph
          have hkeq := Option.some.inj hph
          cases hkeq
          refine ⟨List.mem_append_right _ (by simp), ?_⟩
          intro q o hq ho
          omega
        · rw [List.getElem?_set_ne (fun hc => hii hc.symm)] at hph
          obtain ⟨h1, h2⟩ := hinv.runEvents i' t'' k' hti' hph
          exact ⟨List.mem_append_left _ h1,
            fun q o hq ho => List.mem_append_left _ (h2 q o hq ho)⟩
      · intro i' j' ti tj hij hti htj hkey p n hmem q o ho
        rcases List.mem_append.mp hmem with hold | hnew
        · exact (hinv.ser i' j' ti tj hij hti htj hkey p n hold q o ho).trans
            (List.sublist_append_left _ _)
        · simp at hnew
      · intro i' j' ti tj hij hti htj hkey hmem
        rcases List.mem_append.mp hmem with hold | hnew
        · exact (hinv.fifo i' j' ti tj hij hti htj hkey hold).trans
            (List.sublist_append_left _ _)
        · rw [List.mem_singleton] at hnew
          injection hnew with hk1 hk2
          subst hk2
          have hdonei' : s.phases[i']? = some .done :=
            halldone i' ti hij hti (by rw [hkey, hk1])
          obtain ⟨hrel, -, -⟩ := hinv.doneEvents i' ti hti hdonei'
          have hp := List.Sublist.append (List.singleton_sublist.mpr hrel)
            (List.Sublist.refl [LockEvent.begin t.key j'])
          rw [hk1]
          exact hp
  | exec i k t o ht hr ho =>
      obtain ⟨hilen, -⟩ := List.getElem?_eq_some.mp hr
      refine ⟨?_, ?_, ?_, ?_, ?_, ?_⟩
      · simp [List.length_set, hinv.len]
      · intro i' t'' ph hti' hph hne j t' hj htj hkey
        by_cases hii : i' = i
        · subst hii
          rw [ht] at hti'
          have hteq := Option.some.inj hti'
          subst hteq
          have hji : ¬ i' = j := by omega
          rw [List.getElem?_set_ne hji]
          exact hinv.guard i' t (.running k) ht hr (by simp) j t' hj htj hkey
        · rw [List.getElem?_set_ne (fun hc => hii hc.symm)] at hph
          by_cases hji : j = i
          · subst hji
            have hold := hinv.guard i' t'' ph hti' hph hne j t' hj htj hkey
            rw [hr] at hold
            cases Option.some.inj hold
          · rw [List.getElem?_set_ne (fun hc => hji hc.symm)]
            exact hinv.guard i' t'' ph hti' hph hne j t' hj htj hkey
      · intro i' t'' hti' hph
        by_cases hii : i' = i
        · subst hii
          rw [List.getElem?_set_self hilen] at hph
          cases Option.some.inj hph
        · rw [List.getElem?_set_ne (fun hc => hii hc.symm)] at hph
          obtain ⟨h1, h2, h3⟩ := hinv.doneEvents i' t'' hti' hph
          exact ⟨List.mem_append_left _ h1, List.mem_append_left _ h2,
            fun q o' ho' => List.mem_append_left _ (h3 q o' ho')⟩
      · intro i' t'' k' hti' hph
        by_cases hii : i' = i
        · subst hii
          rw [ht] at hti'
          have hteq := Option.some.inj hti'
          subst hteq
          rw [List.getElem?_set_self hilen] at hph
          have hkeq := Option.some.inj hph
          cases hkeq
          obtain ⟨h1, h2⟩ := hinv.runEvents i' t k ht hr
          refine ⟨List.mem_append_left _ h1, ?_⟩
          intro q o' hq ho'
          by_cases hqk : q = k
          · subst hqk
            rw [ho] at ho'
            have hoeq := Option.some.inj ho'
            subst hoeq
            exact List.mem_append_right _ (by simp)
          · exact List.mem_append_left _ (h2 q o' (by omega) ho')
        · rw [List.getElem?_set_ne (fun hc => hii hc.symm)] at hph
          obtain ⟨h1, h2⟩ := hinv.runEvents i' t'' k' hti' hph
          exact ⟨List.mem_append_left _ h1,
            fun q o' hq ho' => List.mem_append_left _ (h2 q o' hq ho')⟩
      · intro i' j' ti tj hij hti htj hkey p n hmem q o' ho'
        rcases List.mem_append.mp hmem with hold | hnew
        · exact (hinv.ser i' j' ti tj hij hti htj hkey p n hold q o' ho').trans
            (List.sublist_append_left _ _)
        · rw [List.mem_singleton] at hnew
          injection hnew with hk1 hk2 hk3 hk4
          subst hk2
          have hdone := hinv.guard j' t (.running k) ht hr (by simp) i' ti hij hti
            (by rw [hkey, hk1])
          obtain ⟨-, -, h3⟩ := hinv.doneEvents i' ti hti hdone
          have hp := List.Sublist.append (List.singleton_sublist.mpr (h3 q o' ho'))
            (List.Sublist.refl [LockEvent.gitOp t.key j' k o])
          rw [hk1, hk3, hk4]
          exact hp
      · intro i' j' ti tj hij hti htj hkey hmem
        rcases List.mem_append.mp hmem with hold | hnew
        · exact (hinv.fifo i' j' ti tj hij hti htj hkey hold).trans
            (List.sublist_append_left _ _)
        · simp at hnew
  | finish i k t ht hr hk =>
      obtain ⟨hilen, -⟩ := List.getElem?_eq_some.mp hr
      refine ⟨?_, ?_, ?_, ?_, ?_, ?_⟩
      · simp [List.length_set, hinv.len]
      · intro i' t'' ph hti' hph hne j t' hj htj hkey
        by_cases hji : j = i
        · subst hji
          rw [List.getElem?_set_self hilen]
        · rw [List.getElem?_set_ne (fun hc => hji hc.symm)]
          by_cases hii : i' = i
          · subst hii
            rw [ht] at hti'
            have hteq := Option.some.inj hti'
            subst hteq
            exact hinv.guard i' t (.running k) ht hr (by simp) j t' hj htj hkey
          · rw [List.getElem?_set_ne (fun hc => hii hc.symm)] at hph
            exact hinv.guard i' t'' ph hti' hph hne j t' hj htj hkey
      · intro i' t'' hti' hph
        by_cases hii : i' = i
        · subst hii
          rw [ht] at hti'
          have hteq := Option.some.inj hti'
          subst hteq
          obtain ⟨h1, h2⟩ := hinv.runEvents i' t k ht hr
          refine ⟨List.mem_append_right _ (by simp), List.mem_append_left _ h1, ?_⟩
          intro q o ho
          obtain ⟨hqlen, -⟩ := List.getElem?_eq_some.mp ho
          have hklen : t.ops.length ≤ k := List.getElem?_eq_none_iff.mp hk
          exact List.mem_append_left _ (h2 q o (by omega) ho)
        · rw [List.getElem?_set_ne (fun hc => hii hc.symm)] at hph
          obtain ⟨h1, h2, h3⟩ := hinv.doneEvents i' t'' hti' hph
          exact ⟨List.mem_append_left _ h1, List.mem_append_left _ h2,
            fun q o ho => List.mem_append_left _ (h3 q o ho)⟩
      · intro i' t'' k' hti' hph
        by_cases hii : i' = i
        · subst hii
          rw [List.getElem?_set_self hilen] at hph
          cases Option.some.inj hph
        · rw [List.getElem?_set_ne (fun hc => hii hc.symm)] at hph
          obtain ⟨h1, h2⟩ := hinv.runEvents i' t'' k' hti' hph
          exact ⟨List.mem_append_left _ h1,
            fun q o hq ho => List.mem_append_left _ (h2 q o hq ho)⟩
      · intro i' j' ti tj hij hti htj hkey p n hmem q o ho
        rcases List.mem_append.mp hmem with hold | hnew
        · exact (hinv.ser i' j' ti tj hij hti htj hkey p n hold q o ho).trans
            (List.sublist_append_left _ _)
        · simp at hnew
      · intro i' j' ti tj hij hti htj hkey hmem
        rcases List.mem_append.mp hmem with hold | hnew
        · exact (hinv.fifo i' j' ti tj hij hti htj hkey hold).trans
            (List.sublist_append_left _ _)
        · simp at hnew

theorem lockInv_reach (tasks : List RepoTask) (s : LockSys)
    (h : LockReach tasks s) : LockInv tasks s := by
  induction h with
  | refl => exact lockInv_init tasks
  | tail _ hstep ih => exact ih.step hstep

/-- A running task can always be driven to completion: its remaining Git
operations execute and then `finish` — the `finally { resolve() }` — fires,
releasing the lock.  Nothing here depends on `RepoTask.throws`. -/
theorem lockRun_body (tasks : List RepoTask) (i : Nat) (t : RepoTask)
    (ht : tasks[i]? = some t) :
    ∀ (l : List String) (k : Nat) (s : LockSys), t.ops.drop k = l →
      s.phases[i]? = some (.running k) →
      ∃ s', Relation.ReflTransGen (LockStep tasks) s s' ∧
        (∀ j, j ≠ i → s'.phases[j]? = s.phases[j]?) ∧
        s'.phases[i]? = some .done ∧
        s'.phases.length = s.phases.length := by
  intro l
  induction l with
  | nil =>
      intro k s hdrop hph
      obtain ⟨hilen, -⟩ := List.getElem?_eq_some.mp hph
      have hnone : t.ops[k]? = none := by
        rw [List.getElem?_eq_none_iff]
        have := congrArg List.length hdrop
        simp [List.length_drop] at this
        omega
      refine ⟨⟨s.phases.set i .done, s.log ++ [.release t.key i]⟩,
        Relation.ReflTransGen.single (LockStep.finish s i k t ht hph hnone),
        ?_, ?_, ?_⟩
      · intro j hj
        exact List.getElem?_set_ne (fun hc => hj hc.symm)
      · exact List.getElem?_set_self hilen
      · simp [List.length_set]
  | cons o l ih =>
      intro k s hdrop hph
      obtain ⟨hilen, -⟩ := List.getElem?_eq_some.mp hph
      have hsome : t.ops[k]? = some o := by
        have h0 : (t.ops.drop k)[0]? = some o := by rw [hdrop]; simp
        rw [List.getElem?_drop] at h0
        simpa using h0
      have hdrop' : t.ops.drop (k + 1) = l := by
        have h1 : (t.ops.drop k).drop 1 = t.ops.drop (k + 1) := by
          rw [List.drop_drop]
        rw [← h1, hdrop]
        rfl
      obtain ⟨s', hreach, hother, hdone, hlen⟩ := ih (k + 1)
        ⟨s.phases.set i (.running (k + 1)), s.log ++ [.gitOp t.key i k o]⟩ hdrop'
        (List.getElem?_set_self hilen)
      refine ⟨s', Relation.ReflTransGen.head (LockStep.exec s i k t o ht hph hsome)
        hreach, ?_, hdone, ?_⟩
      · intro j hj
        rw [hother j hj]
        exact List.getElem?_set_ne (fun hc => hj hc.symm)
      · rw [hlen]
        simp [List.length_set]

/-- The whole registration list can be driven to completion in FIFO order:
every task — including one whose body throws — ends `done`, its lock
released. -/
theorem lockRun_all (tasks : List RepoTask) :
    ∀ m, m ≤ tasks.length →
      ∃ s, LockReach tasks s ∧
        (∀ j, j < m → s.phases[j]? = some .done) ∧
        (∀ j, m ≤ j → s.phases[j]? = (initSys tasks).phases[j]?) ∧
        s.phases.length = tasks.length := by
  intro m
  induction m with
  | zero =>
      intro _
      exact ⟨initSys tasks, Relation.ReflTransGen.refl,
        fun j hj => absurd hj (by omega), fun j _ => rfl, by simp [initSys]⟩
  | succ m ih =>
      intro hm
      obtain ⟨s, hreach, hdone, hwait, hlen⟩ := ih (by omega)
      have hmlt : m < tasks.length := by omega
      obtain ⟨t, ht⟩ : ∃ t, tasks[m]? = some t := by
        cases htm : tasks[m]? with
        | none =>
            rw [List.getElem?_eq_none_iff] at htm
            omega
        | some t => exact ⟨t, rfl⟩
      have hwm : s.phases[m]? = some .waiting := by
        rw [hwait m (le_refl m)]
        show (List.replicate tasks.length Phase.waiting)[m]? = some Phase.waiting
        exact List.getElem?_replicate_of_lt hmlt
      have hprev : ∀ j, prevSameKey tasks t.key m = some j →
          s.phases[j]? = some .done := by
        intro j hp
        exact hdone j (prevSameKey_lt tasks t.key m j hp)
      have hilen : m < s.phases.length := by omega
      obtain ⟨s', hreach2, hother, hdone', hlen'⟩ :=
        lockRun_body tasks m t ht t.ops 0
          ⟨s.phases.set m (.running 0), s.log ++ [.begin t.key m]⟩ rfl
          (List.getElem?_set_self hilen)
      refine ⟨s', Relation.ReflTransGen.trans hreach
        (Relation.ReflTransGen.head (LockStep.start s m t ht hwm hprev) hreach2),
        ?_, ?_, ?_⟩
      · intro j hj
        by_cases hjm : j = m
        · subst hjm
          exact hdone'
        · rw [hother j hjm, List.getElem?_set_ne (fun hc => hjm hc.symm)]
          exact hdone j (by omega)
      · intro j hj
        have hjm : j ≠ m := by omega
        rw [hother j hjm, List.getElem?_set_ne (fun hc => hjm hc.symm)]
        exact hwait j (by omega)
      · rw [hlen']
        simp [List.length_set, hlen]

/-- C9: (1) for every reachable state of the lock system and any two
same-key tasks registered as `i < j`, every Git operation task `j` has
performed comes after ALL of task `i`'s operations, and task `j`'s critical
section begins only after task `i`'s release — per-key execution is serial in
FIFO registration order and Git operations of same-key tasks never
interleave; (2) every registration list, including tasks whose bodies throw,
can run to completion with every lock released (`finally { resolve() }` is
unconditional); (3) tasks holding distinct keys may interleave: a concrete
schedule of `twoKeyTasks` runs an operation of `"c/d"` between the two
operations of `"a/b"`. -/
theorem withRepoLock_spec :
    (∀ (tasks : List RepoTask) (s : LockSys), LockReach tasks s →
      ∀ (i j : Nat) (ti tj : RepoTask), i < j →
        tasks[i]? = some ti → tasks[j]? = some tj → ti.key = tj.key →
        (∀ (p : Nat) (n : String), LockEvent.gitOp tj.key j p n ∈ s.log →
          ∀ (q : Nat) (o : String), ti.ops[q]? = some o →
            [LockEvent.gitOp ti.key i q o, LockEvent.gitOp tj.key j p n].Sublist
              s.log) ∧
        (LockEvent.begin tj.key j ∈ s.log →
          [LockEvent.release ti.key i, LockEvent.begin tj.key j].Sublist s.log)) ∧
    (∀ tasks : List RepoTask, ∃ s, LockReach tasks s ∧
      ∀ i, i < tasks.length → s.phases[i]? = some .done) ∧
    (∃ s, LockReach twoKeyTasks s ∧ s.log = twoKeyInterleavedLog) := by
  refine ⟨?_, ?_, ?_⟩
  · intro tasks s h i j ti tj hij hti htj hkey
    have hinv := lockInv_reach tasks s h
    exact ⟨hinv.ser i j ti tj hij hti htj hkey,
      hinv.fifo i j ti tj hij hti htj hkey⟩
  · intro tasks
    obtain ⟨s, hreach, hdone, -, -⟩ := lockRun_all tasks tasks.length (le_refl _)
    exact ⟨s, hreach, hdone⟩
  · refine ⟨⟨[.done, .done], twoKeyInterleavedLog⟩, ?_, rfl⟩
    have e1 : LockStep twoKeyTasks ⟨[.waiting, .waiting], []⟩
        ⟨[.running 0, .waiting], [.begin "a/b" 0]⟩ :=
      LockStep.start _ 0 ⟨"a/b", ["g1", "g2"], false⟩ rfl rfl
        (fun j h => by cases h)
    have e2 : LockStep twoKeyTasks ⟨[.running 0, .waiting], [.begin "a/b" 0]⟩
        ⟨[.running 1, .waiting], [.begin "a/b" 0, .gitOp "a/b" 0 0 "g1"]⟩ :=
      LockStep.exec _ 0 0 ⟨"a/b", ["g1", "g2"], false⟩ "g1" rfl rfl rfl
    have e3 : LockStep twoKeyTasks
        ⟨[.running 1, .waiting], [.begin "a/b" 0, .gitOp "a/b" 0 0 "g1"]⟩
        ⟨[.running 1, .running 0],
          [.begin "a/b" 0, .gitOp "a/b" 0 0 "g1", .begin "c/d" 1]⟩ :=
      LockStep.start _ 1 ⟨"c/d", ["h1"], true⟩ rfl rfl
        (fun j h => by
          rw [show prevSameKey twoKeyTasks "c/d" 1 = none from by decide] at h
          cases h)
    have e4 : LockStep twoKeyTasks
        ⟨[.running 1, .running 0],
          [.begin "a/b" 0, .gitOp "a/b" 0 0 "g1", .begin "c/d" 1]⟩
        ⟨[.running 1, .running 1],
          [.begin "a/b" 0, .gitOp "a/b" 0 0 "g1", .begin "c/d" 1,
            .gitOp "c/d" 1 0 "h1"]⟩ :=
      LockStep.exec _ 1 0 ⟨"c/d", ["h1"], true⟩ "h1" rfl rfl rfl
    have e5 : LockStep twoKeyTasks
        ⟨[.running 1, .running 1],
          [.begin "a/b" 0, .gitOp "a/b" 0 0 "g1", .begin "c/d" 1,
            .gitOp "c/d" 1 0 "h1"]⟩
        ⟨[.running 2, .running 1],
          [.begin "a/b" 0, .gitOp "a/b" 0 0 "g1", .begin "c/d" 1,
            .gitOp "c/d" 1 0 "h1", .gitOp "a/b" 0 1 "g2"]⟩ :=
      LockStep.exec _ 0 1 ⟨"a/b", ["g1", "g2"], false⟩ "g2" rfl rfl rfl
    have e6 : LockStep twoKeyTasks
        ⟨[.running 2, .running 1],
          [.begin "a/b" 0, .gitOp "a/b" 0 0 "g1", .begin "c/d" 1,
            .gitOp "c/d" 1 0 "h1", .gitOp "a/b" 0 1 "g2"]⟩
        ⟨[.running 2, .done],
          [.begin "a/b" 0, .gitOp "a/b" 0 0 "g1", .begin "c/d" 1,
            .gitOp "c/d" 1 0 "h1", .gitOp "a/b" 0 1 "g2", .release "c/d" 1]⟩ :=
      LockStep.finish _ 1 1 ⟨"c/d", ["h1"], true⟩ rfl rfl rfl
    have e7 : LockStep twoKeyTasks
        ⟨[.running 2, .done],
          [.begin "a/b" 0, .gitOp "a/b" 0 0 "g1", .begin "c/d" 1,
            .gitOp "c/d" 1 0 "h1", .gitOp "a/b" 0 1 "g2", .release "c/d" 1]⟩
        ⟨[.done, .done], twoKeyInterleavedLog⟩ :=
      LockStep.finish _ 0 2 ⟨"a/b", ["g1", "g2"], false⟩ rfl rfl rfl
    exact Relation.ReflTransGen.head e1 (Relation.ReflTransGen.head e2
      (Relation.ReflTransGen.head e3 (Relation.ReflTransGen.head e4
        (Relation.ReflTransGen.head e5 (Relation.ReflTransGen.head e6
          (Relation.ReflTransGen.single e7))))))

/-- C9 (witness): the serial execution of two same-key tasks is reachable;
the theorem then yields that task 0's Git operation precedes task 1's and
task 1 began only after task 0's release. -/
theorem withRepoLock_spec_witness :
    ((0 : Nat) < 1 ∧ sameKeyTasks[0]? = some ⟨"a/b", ["g1"], false⟩ ∧
      sameKeyTasks[1]? = some ⟨"a/b", ["g2"], false⟩ ∧
      LockReach sameKeyTasks sameKeySerialSys ∧
      LockEvent.gitOp "a/b" 1 0 "g2" ∈ sameKeySerialSys.log ∧
      LockEvent.begin "a/b" 1 ∈ sameKeySerialSys.log) ∧
    [LockEvent.gitOp "a/b" 0 0 "g1", LockEvent.gitOp "a/b" 1 0 "g2"].Sublist
      sameKeySerialSys.log ∧
    [LockEvent.release "a/b" 0, LockEvent.begin "a/b" 1].Sublist
      sameKeySerialSys.log := by
  have hreach : LockReach sameKeyTasks sameKeySerialSys := by
    have e1 : LockStep sameKeyTasks ⟨[.waiting, .waiting], []⟩
        ⟨[.running 0, .waiting], [.begin "a/b" 0]⟩ :=
      LockStep.start _ 0 ⟨"a/b", ["g1"], false⟩ rfl rfl (fun j h => by cases h)
    have e2 : LockStep sameKeyTasks ⟨[.running 0, .waiting], [.begin "a/b" 0]⟩
        ⟨[.running 1, .waiting], [.begin "a/b" 0, .gitOp "a/b" 0 0 "g1"]⟩ :=
      LockStep.exec _ 0 0 ⟨"a/b", ["g1"], false⟩ "g1" rfl rfl rfl
    have e3 : LockStep sameKeyTasks
        ⟨[.running 1, .waiting], [.begin "a/b" 0, .gitOp "a/b" 0 0 "g1"]⟩
        ⟨[.done, .waiting],
          [.begin "a/b" 0, .gitOp "a/b" 0 0 "g1", .release "a/b" 0]⟩ :=
      LockStep.finish _ 0 1 ⟨"a/b", ["g1"], false⟩ rfl rfl rfl
    have e4 : LockStep sameKeyTasks
        ⟨[.done, .waiting],
          [.begin "a/b" 0, .gitOp "a/b" 0 0 "g1", .release "a/b" 0]⟩
        ⟨[.done, .running 0],
          [.begin "a/b" 0, .gitOp "a/b" 0 0 "g1", .release "a/b" 0,
            .begin "a/b" 1]⟩ :=
      LockStep.start _ 1 ⟨"a/b", ["g2"], false⟩ rfl rfl
        (fun j h => by
          rw [show prevSameKey sameKeyTasks "a/b" 1 = some 0 from by decide] at h
          cases h
          rfl)
    have e5 : LockStep sameKeyTasks
        ⟨[.done, .running 0],
          [.begin "a/b" 0, .gitOp "a/b" 0 0 "g1", .release "a/b" 0,
            .begin "a/b" 1]⟩
        ⟨[.done, .running 1],
          [.begin "a/b" 0, .gitOp "a/b" 0 0 "g1", .release "a/b" 0,
            .begin "a/b" 1, .gitOp "a/b" 1 0 "g2"]⟩ :=
      LockStep.exec _ 1 0 ⟨"a/b", ["g2"], false⟩ "g2" rfl rfl rfl
    have e6 : LockStep sameKeyTasks
        ⟨[.done, .running 1],
          [.begin "a/b" 0, .gitOp "a/b" 0 0 "g1", .release "a/b" 0,
            .begin "a/b" 1, .gitOp "a/b" 1 0 "g2"]⟩
        sameKeySerialSys :=
      LockStep.finish _ 1 1 ⟨"a/b", ["g2"], false⟩ rfl rfl rfl
    exact Relation.ReflTransGen.head e1 (Relation.ReflTransGen.head e2
      (Relation.ReflTransGen.head e3 (Relation.ReflTransGen.head e4
        (Relation.ReflTransGen.head e5 (Relation.ReflTransGen.single e6)))))
  have hmain := withRepoLock_spec.1 sameKeyTasks sameKeySerialSys hreach 0 1
    ⟨"a/b", ["g1"], false⟩ ⟨"a/b", ["g2"], false⟩ (by decide) rfl rfl rfl
  refine ⟨⟨by decide, rfl, rfl, hreach, by decide, by decide⟩, ?_, ?_⟩
  · exact hmain.1 0 "g2" (by decide) 0 "g1" rfl
  · exact hmain.2 (by decide)

end GitRelay
